import Mathlib

/-!
# Verification of core components of a Stockfish-derived chess engine

This file gives a shallow embedding, in Lean 4, of the parts of the engine
relevant to a fixed list of specification claims, and proves (or refutes)
each claim against the embedded code.

Embedded components and their sources:

* `Stockfish.Hist` — the history-table update rule and the depth-indexed
  bonus/malus formulas (`src/history.h`, `src/history.cpp`).
* `Stockfish.TT` — the transposition-table entry layout, `TTWriter::write`
  and `TranspositionTable::probe` (`src/tt.cpp`).
* `Stockfish.Fen` — `Position::set` and `Position::fen` (`src/position.cpp`).
* `Stockfish.Eng` — `Engine::set_position` and the StateInfo deque
  (`src/engine.cpp`).
* `Stockfish.NNUE` — the accumulator stack's incremental updates, the fused
  double update, and the feature-transformer output packing
  (`src/nnue/nnue_accumulator.cpp`, `src/nnue/nnue_feature_transformer.h`,
  `src/nnue/network.cpp`).

C++ machine arithmetic is made explicit: `int` is `Int`, unsigned narrowing
is `% 2^w`, signed narrowing wraps through `wrapW`, and C++ `/` on `int`
(truncation toward zero) is `Int.tdiv`.

A few definitions the repository's sources reference but do not contain
(they live in files absent from the snapshot, e.g. `types.h`, `bitboard.h`
and the NNUE feature-set headers) are modelled from the specification; each
such definition carries a doc comment starting with `Modelled from the
spec:`.
-/

namespace Stockfish

/-- Two's-complement wrap of an integer into `w` bits
(the value a C++ signed `w`-bit store retains). -/
def wrapW (w : Nat) (x : Int) : Int :=
  (x + 2 ^ (w - 1)) % (2 ^ w : Nat) - 2 ^ (w - 1)

/-- Narrowing conversion to `int16_t`, as used for `value16`/`eval16`. -/
def toInt16 (x : Int) : Int := wrapW 16 x

namespace Hist

/-- `StatsEntry::operator<<` from `src/history.h`:
`entry += bonus - entry * std::abs(bonus) / D` with C++ truncating
integer division. -/
def statsEntryShift (D e bonus : Int) : Int :=
  e + bonus - Int.tdiv (e * |bonus|) D

/-- `stat_bonus` from `src/history.cpp`: `std::min(253 * d - 356, 1117)`. -/
def stat_bonus (d : Int) : Int := min (253 * d - 356) 1117

/-- `stat_malus` from `src/history.cpp`: `std::min(517 * d - 308, 1206)`. -/
def stat_malus (d : Int) : Int := min (517 * d - 308) 1206

/-- Repeated application of the update rule to one table entry,
oldest bonus first. -/
def statsEntryRun (D : Int) (bonuses : List Int) : Int :=
  bonuses.foldl (statsEntryShift D) 0

lemma tdiv_nonneg_eq_ediv {a b : Int} (ha : 0 ≤ a) (hb : 0 ≤ b) :
    Int.tdiv a b = a / b := Int.tdiv_eq_ediv ha hb

lemma ediv_le_left {a c D : Int} (hD : 0 < D) (ha : 0 ≤ a) (hc : 0 ≤ c)
    (hcD : c ≤ D) : a * c / D ≤ a := by
  have h1 : (a * c / D) * D ≤ a * c := Int.ediv_mul_le _ (by omega)
  have h2 : a * c ≤ a * D := by
    exact mul_le_mul_of_nonneg_left hcD ha
  have h3 : (a * c / D) * D ≤ a * D := le_trans h1 h2
  exact le_of_mul_le_mul_right h3 hD

lemma ediv_ge_sum {a c D : Int} (hD : 0 < D) (ha : 0 ≤ a) (haD : a ≤ D)
    (hc : 0 ≤ c) (hcD : c ≤ D) : a + c - D ≤ a * c / D := by
  have hprod : 0 ≤ (D - a) * (D - c) :=
    mul_nonneg (by omega) (by omega)
  have h1 : (a + c - D) * D ≤ a * c := by nlinarith
  have h2 : a * c < (a * c / D + 1) * D :=
    Int.lt_ediv_add_one_mul_self _ hD
  have h3 : (a + c - D) * D < (a * c / D + 1) * D := lt_of_le_of_lt h1 h2
  have h4 : a + c - D < a * c / D + 1 := lt_of_mul_lt_mul_right h3 (by omega)
  omega

/-- Single-update saturation: if `|e| ≤ D` and `|bonus| ≤ D`, the shifted
entry stays within `[-D, D]`. -/
lemma statsEntryShift_abs_le {D e bonus : Int} (hD : 0 < D)
    (he : |e| ≤ D) (hb : |bonus| ≤ D) : |statsEntryShift D e bonus| ≤ D := by
  have hc0 : (0:Int) ≤ |bonus| := abs_nonneg _
  have hcD : |bonus| ≤ D := hb
  obtain ⟨heD1, heD2⟩ := abs_le.mp he
  rcases le_or_lt 0 e with he0 | he0
  · -- e ≥ 0 : the divided term is (e * |bonus|) / D with nonneg numerator
    have ht : Int.tdiv (e * |bonus|) D = e * |bonus| / D :=
      tdiv_nonneg_eq_ediv (mul_nonneg he0 hc0) (le_of_lt hD)
    have hq0 : 0 ≤ e * |bonus| / D := Int.ediv_nonneg (mul_nonneg he0 hc0) (le_of_lt hD)
    have hqe : e * |bonus| / D ≤ e := ediv_le_left hD he0 hc0 hcD
    have hsum : e + |bonus| - D ≤ e * |bonus| / D :=
      ediv_ge_sum hD he0 heD2 hc0 hcD
    rcases abs_choice bonus with hbc | hbc <;>
      (rw [abs_le]; unfold statsEntryShift; rw [ht];
       constructor <;> linarith [hq0, hqe, hsum, hc0, hcD, hbc])
  · -- e < 0 : factor out the sign, then reuse the nonneg bounds for -e
    have ha0 : (0:Int) ≤ -e := by omega
    have ht : Int.tdiv (e * |bonus|) D = -((-e) * |bonus| / D) := by
      have hneg : e * |bonus| = -((-e) * |bonus|) := by ring
      rw [hneg, Int.neg_tdiv,
        tdiv_nonneg_eq_ediv (mul_nonneg ha0 hc0) (le_of_lt hD)]
    have hq0 : 0 ≤ (-e) * |bonus| / D :=
      Int.ediv_nonneg (mul_nonneg ha0 hc0) (le_of_lt hD)
    have hqe : (-e) * |bonus| / D ≤ -e := ediv_le_left hD ha0 hc0 hcD
    have hsum : (-e) + |bonus| - D ≤ (-e) * |bonus| / D :=
      ediv_ge_sum hD ha0 (by omega) hc0 hcD
    rcases abs_choice bonus with hbc | hbc <;>
      (rw [abs_le]; unfold statsEntryShift; rw [ht];
       constructor <;> linarith [hq0, hqe, hsum, hc0, hcD, hbc])

lemma statsEntryRun_go {D : Int} (hD : 0 < D) :
    ∀ (bs : List Int) (e : Int), |e| ≤ D → (∀ b ∈ bs, |b| ≤ D) →
      |bs.foldl (statsEntryShift D) e| ≤ D := by
  intro bs
  induction bs with
  | nil => intro e he _; simpa using he
  | cons b bs ih =>
    intro e he hall
    simp only [List.foldl_cons]
    exact ih _ (statsEntryShift_abs_le hD he (hall b (by simp)))
      (fun x hx => hall x (by simp [hx]))

/-- C4: for every saturation limit `D > 0`, a history entry `e` with
`|e| ≤ D` updated by `e ← e + bonus - e*|bonus|/D` (truncating division)
with `|bonus| ≤ D` stays within `[-D, D]`; hence, starting from zero, any
sequence of updates whose bonuses all satisfy `|bonus| ≤ D` keeps the
entry within `[-D, D]`. -/
theorem historySaturation (D e bonus : Int) (bs : List Int)
    (hD : 0 < D) (he : |e| ≤ D) (hb : |bonus| ≤ D)
    (hbs : ∀ b ∈ bs, |b| ≤ D) :
    |statsEntryShift D e bonus| ≤ D ∧ |statsEntryRun D bs| ≤ D :=
  ⟨statsEntryShift_abs_le hD he hb,
   statsEntryRun_go hD bs 0 (by simpa using le_of_lt hD) hbs⟩

/-- Concrete instance of `historySaturation` at the butterfly table's
limit `D = 7183`, discharging each hypothesis. -/
theorem historySaturation_witness :
    (0:Int) < 7183 ∧ |(100:Int)| ≤ 7183 ∧ |(-7183:Int)| ≤ 7183 ∧
      (∀ b ∈ ([1117, -1206, 500] : List Int), |b| ≤ 7183) ∧
      |statsEntryShift 7183 100 (-7183)| ≤ 7183 ∧
      |statsEntryRun 7183 [1117, -1206, 500]| ≤ 7183 := by
  have h := historySaturation 7183 100 (-7183) [1117, -1206, 500]
    (by norm_num) (by norm_num) (by norm_num) (by decide)
  exact ⟨by norm_num, by norm_num, by norm_num, by decide, h.1, h.2⟩

/-- C9 counterexample: `stat_bonus` is not clamped at zero — at depth 1 it
returns `-103`, a negative value, contradicting the claim that neither
function ever returns a negative value. -/
theorem statBonus_negative_cex : stat_bonus 1 = -103 ∧ stat_bonus 1 < 0 := by
  constructor <;> decide

/-- C9 (amended): the bonus is `min(253·d - 356, 1117)` and the malus is
`min(517·d - 308, 1206)`; neither is clamped at zero — the bonus is
negative exactly for depths `d ≤ 1` and the malus exactly for `d ≤ 0`. -/
theorem statBonusMalus_formula (d : Int) :
    stat_bonus d = min (253 * d - 356) 1117 ∧
    stat_malus d = min (517 * d - 308) 1206 ∧
    (stat_bonus d < 0 ↔ d ≤ 1) ∧ (stat_malus d < 0 ↔ d ≤ 0) := by
  refine ⟨rfl, rfl, ?_, ?_⟩
  · rw [stat_bonus, min_lt_iff]; omega
  · rw [stat_malus, min_lt_iff]; omega

end Hist

namespace TT

/-- Modelled from the spec: `DEPTH_ENTRY_OFFSET` (7), defined in the absent
`types.h`; stored depth has this offset so depths from -6 plies fit a byte. -/
def DEPTH_ENTRY_OFFSET : Int := 7

/-- Modelled from the spec: bound kinds (bits 0-1 of `genBound8`) are
none/upper/lower/exact, so `BOUND_EXACT = 3` (absent `types.h`). -/
def BOUND_EXACT : Nat := 3

/-- Modelled from the spec: the `VALUE_NONE` sentinel from the absent
`types.h`; its numeric value is immaterial to the claims. -/
def VALUE_NONE : Int := 32002

/-- `GENERATION_BITS` from `src/tt.cpp`: low bits reserved for pv/bound. -/
def GENERATION_BITS : Nat := 3

/-- `GENERATION_DELTA` from `src/tt.cpp`: increment for the generation field. -/
def GENERATION_DELTA : Nat := 1 <<< GENERATION_BITS

/-- `GENERATION_CYCLE` from `src/tt.cpp`: cycle length. -/
def GENERATION_CYCLE : Nat := 255 + GENERATION_DELTA

/-- `GENERATION_MASK` from `src/tt.cpp`: mask pulling out the generation. -/
def GENERATION_MASK : Nat := (0xFF <<< GENERATION_BITS) &&& 0xFF

/-- The 8-byte packed payload `TTData8` of `src/tt.cpp`: two unsigned bytes
`depth8` and `genBound8`, the 16-bit `move16`, and two signed 16-bit
values. -/
structure TTData8 where
  depth8 : Nat
  genBound8 : Nat
  move16 : Nat
  value16 : Int
  eval16 : Int
deriving DecidableEq

/-- `TTData8::is_occupied` from `src/tt.cpp`: `bool(depth8)`. -/
def is_occupied (e : TTData8) : Bool := e.depth8 != 0

/-- `TTData8::relative_age` from `src/tt.cpp`:
`(GENERATION_CYCLE + generation8 - genBound8) & GENERATION_MASK`. -/
def relative_age (e : TTData8) (generation8 : Nat) : Nat :=
  (GENERATION_CYCLE + generation8 - e.genBound8) &&& GENERATION_MASK

/-- The external view `TTData` of `src/tt.cpp` / `src/tt.h`. -/
structure TTData where
  move : Nat
  value : Int
  eval : Int
  depth : Int
  bound : Nat
  is_pv : Bool
deriving DecidableEq

/-- `TTData8::read` from `src/tt.cpp`: unpack the payload into a `TTData`
(`depth8 + DEPTH_ENTRY_OFFSET`, bound bits 0-1, pv bit 2). -/
def ttRead (e : TTData8) : TTData :=
  { move := e.move16
    value := e.value16
    eval := e.eval16
    depth := (e.depth8 : Int) + DEPTH_ENTRY_OFFSET
    bound := e.genBound8 &&& 0x3
    is_pv := e.genBound8 &&& 0x4 != 0 }

/-- `TTWriter::write` from `src/tt.cpp`, acting on the entry's current
16-bit key and payload and returning the new pair.  The branch structure,
conditions and stored fields mirror the source line by line; `uint8_t`
narrowing is mod 256 and `int16_t` narrowing is `toInt16`. -/
def ttWrite (key16 : Nat) (e : TTData8) (k : Nat) (v : Int) (pv : Bool)
    (b : Nat) (d : Int) (m : Nat) (ev : Int) (gen : Nat) : Nat × TTData8 :=
  -- Preserve the old ttmove if we don't have a new one
  let newMove := if m ≠ 0 ∨ k % 65536 ≠ key16 then m else e.move16
  -- Overwrite less valuable entries (cheapest checks first)
  if b = BOUND_EXACT ∨ k % 65536 ≠ key16
      ∨ d - DEPTH_ENTRY_OFFSET + 2 * (if pv then (1:Int) else 0) >
          (e.depth8 : Int) - 4
      ∨ relative_age e gen ≠ 0 then
    (k % 65536,
     { depth8 := ((d - DEPTH_ENTRY_OFFSET) % (256:Int)).toNat
       genBound8 := gen ||| ((if pv then 1 else 0) <<< 2) ||| b
       move16 := newMove
       value16 := toInt16 v
       eval16 := toInt16 ev })
  else if m ≠ 0 ∨ k % 65536 ≠ key16 then
    (key16, { e with move16 := newMove })
  else
    (key16, e)

/-- Modelled from the spec: `mul_hi64` (absent `misc.h`) is the high 64
bits of the 128-bit product of two 64-bit operands. -/
def mul_hi64 (a b : Nat) : Nat := (a * b) >>> 64

/-- A cluster of `src/tt.cpp`: three 16-bit key shards and three payloads. -/
structure Cluster where
  keys : Fin 3 → Nat
  data : Fin 3 → TTData8

/-- The replacement value used by `TranspositionTable::probe`:
`depth8 - relative_age(generation8)` (both promoted to `int`). -/
def replaceValue (e : TTData8) (gen : Nat) : Int :=
  (e.depth8 : Int) - (relative_age e gen : Int)

/-- `TranspositionTable::probe` from `src/tt.cpp` restricted to one cluster:
compare each of the three key shards against the low 16 bits of the search
key (first match wins); on miss pick the replacement entry by the unrolled
`replace_idx` scan.  The returned `Fin 3` stands for the writer (which
entry of the cluster the `TTWriter` points at). -/
def clusterProbe (cl : Cluster) (key : Nat) (gen : Nat) :
    Bool × TTData × Fin 3 :=
  let key16 := key % 65536
  if cl.keys 0 = key16 then (is_occupied (cl.data 0), ttRead (cl.data 0), 0)
  else if cl.keys 1 = key16 then
    (is_occupied (cl.data 1), ttRead (cl.data 1), 1)
  else if cl.keys 2 = key16 then
    (is_occupied (cl.data 2), ttRead (cl.data 2), 2)
  else
    let r1 : Fin 3 :=
      if replaceValue (cl.data 0) gen > replaceValue (cl.data 1) gen then 1
      else 0
    let r2 : Fin 3 :=
      if replaceValue (cl.data r1) gen > replaceValue (cl.data 2) gen then 2
      else r1
    (false,
     ⟨0, VALUE_NONE, VALUE_NONE, DEPTH_ENTRY_OFFSET, 0, false⟩,
     r2)

/-- `TranspositionTable::probe` at table level: the cluster searched is the
one at index `mul_hi64(key, clusterCount)`. -/
def tableProbe (table : Nat → Cluster) (clusterCount : Nat) (key gen : Nat) :
    Bool × TTData × (Nat × Fin 3) :=
  let idx := mul_hi64 key clusterCount
  let p := clusterProbe (table idx) key gen
  (p.1, p.2.1, (idx, p.2.2))

set_option maxRecDepth 100000 in
/-- The packed-generation age is zero exactly when the entry's generation
bits (the top five bits of `genBound8`) equal the current generation
(finite check over one generation cycle). -/
lemma relAge_zero_iff_aux : ∀ g < 32, ∀ genb < 256,
    ((GENERATION_CYCLE + 8 * g - genb) &&& GENERATION_MASK = 0 ↔
      8 * g = genb &&& GENERATION_MASK) := by decide

lemma relative_age_zero_iff (e : TTData8) (gen : Nat) (hg : gen < 256)
    (h8 : gen % 8 = 0) (he : e.genBound8 < 256) :
    (relative_age e gen = 0 ↔ gen = e.genBound8 &&& GENERATION_MASK) := by
  have h := relAge_zero_iff_aux (gen / 8) (by omega) e.genBound8 he
  have h8g : 8 * (gen / 8) = gen := by omega
  rw [h8g] at h
  exact h

/-- Branch characterization of `ttWrite`, with the age disjunct replaced by
the generation comparison it implements: the whole entry is replaced
exactly when the bound is Exact, or the key shard differs, or the new
stored depth plus `2·pv` exceeds `depth8 - 4`, or the entry's generation
differs; otherwise at most `move16` is refreshed. -/
lemma ttWrite_spec (key16 : Nat) (e : TTData8) (k : Nat) (v : Int)
    (pv : Bool) (b : Nat) (d : Int) (m : Nat) (ev : Int) (gen : Nat)
    (hgen : gen < 256) (hgen8 : gen % 8 = 0) (hgb : e.genBound8 < 256)
    (hdlo : DEPTH_ENTRY_OFFSET < d) (hdhi : d < 256 + DEPTH_ENTRY_OFFSET) :
    ttWrite key16 e k v pv b d m ev gen =
      if b = BOUND_EXACT ∨ k % 65536 ≠ key16
          ∨ (d - DEPTH_ENTRY_OFFSET) + 2 * (if pv then (1:Int) else 0) >
              (e.depth8 : Int) - 4
          ∨ gen ≠ e.genBound8 &&& GENERATION_MASK then
        (k % 65536,
         { depth8 := (d - DEPTH_ENTRY_OFFSET).toNat
           genBound8 := gen ||| ((if pv then 1 else 0) <<< 2) ||| b
           move16 := if m ≠ 0 ∨ k % 65536 ≠ key16 then m else e.move16
           value16 := toInt16 v
           eval16 := toInt16 ev })
      else (key16, if m ≠ 0 then { e with move16 := m } else e) := by
  have hage := relative_age_zero_iff e gen hgen hgen8 hgb
  have hagene : (relative_age e gen ≠ 0) ↔
      (gen ≠ e.genBound8 &&& GENERATION_MASK) := not_congr hage
  have hdep : ((d - DEPTH_ENTRY_OFFSET) % (256:Int)).toNat =
      (d - DEPTH_ENTRY_OFFSET).toNat := by
    rw [Int.emod_eq_of_lt
      (by simp only [DEPTH_ENTRY_OFFSET] at hdlo ⊢; omega)
      (by simp only [DEPTH_ENTRY_OFFSET] at hdhi ⊢; omega)]
  by_cases hc : b = BOUND_EXACT ∨ k % 65536 ≠ key16
      ∨ (d - DEPTH_ENTRY_OFFSET) + 2 * (if pv then (1:Int) else 0) >
          (e.depth8 : Int) - 4
      ∨ gen ≠ e.genBound8 &&& GENERATION_MASK
  · have hc' : b = BOUND_EXACT ∨ k % 65536 ≠ key16
        ∨ d - DEPTH_ENTRY_OFFSET + 2 * (if pv then (1:Int) else 0) >
            (e.depth8 : Int) - 4
        ∨ relative_age e gen ≠ 0 := by
      rcases hc with h | h | h | h
      · exact Or.inl h
      · exact Or.inr (Or.inl h)
      · exact Or.inr (Or.inr (Or.inl h))
      · exact Or.inr (Or.inr (Or.inr (hagene.mpr h)))
    simp only [ttWrite]
    rw [if_pos hc', if_pos hc, hdep]
  · have hc' : ¬(b = BOUND_EXACT ∨ k % 65536 ≠ key16
        ∨ d - DEPTH_ENTRY_OFFSET + 2 * (if pv then (1:Int) else 0) >
            (e.depth8 : Int) - 4
        ∨ relative_age e gen ≠ 0) := by
      intro h
      apply hc
      rcases h with h | h | h | h
      · exact Or.inl h
      · exact Or.inr (Or.inl h)
      · exact Or.inr (Or.inr (Or.inl h))
      · exact Or.inr (Or.inr (Or.inr (hagene.mp h)))
    have hk : k % 65536 = key16 := by
      by_contra hne
      exact hc (Or.inr (Or.inl hne))
    simp only [ttWrite]
    rw [if_neg hc', if_neg hc]
    by_cases hm : m ≠ 0
    · rw [if_pos (Or.inl hm : m ≠ 0 ∨ k % 65536 ≠ key16), if_pos hm,
        if_pos (Or.inl hm : m ≠ 0 ∨ k % 65536 ≠ key16)]
    · have hupd : ¬(m ≠ 0 ∨ k % 65536 ≠ key16) := by
        intro h
        rcases h with h | h
        · exact hm h
        · exact h hk
      rw [if_neg hupd, if_neg hm]

lemma lor_lt_256 {x y : Nat} (hx : x < 256) (hy : y < 256) :
    x ||| y < 256 := by
  have h := Nat.bitwise_lt (f := or) (n := 8) (x := x) (y := y)
    (by simpa using hx) (by simpa using hy)
  simpa [HOr.hOr, OrOp.or, Nat.lor] using h

/-- C2: a transposition-table write replaces the whole entry (storing
`d - DEPTH_ENTRY_OFFSET`, the generation/pv/bound byte, `v` and `ev`)
exactly when the bound is Exact, or the low 16 bits of the key differ from
the stored shard, or the new stored depth plus `2·pv` exceeds
`depth8 - 4`, or the entry's generation differs from the current one;
otherwise at most `move16` is refreshed, the prior `move16` being kept
unless the new move is non-null.  In particular an Exact write always
replaces, and writing the same data twice yields identical entry bytes. -/
theorem ttWrite_replacement (key16 : Nat) (e : TTData8) (k : Nat) (v : Int)
    (pv : Bool) (b : Nat) (d : Int) (m : Nat) (ev : Int) (gen : Nat)
    (hgen : gen < 256) (hgen8 : gen % 8 = 0) (hgb : e.genBound8 < 256)
    (hb : b < 4)
    (hdlo : DEPTH_ENTRY_OFFSET < d) (hdhi : d < 256 + DEPTH_ENTRY_OFFSET) :
    (ttWrite key16 e k v pv b d m ev gen =
      if b = BOUND_EXACT ∨ k % 65536 ≠ key16
          ∨ (d - DEPTH_ENTRY_OFFSET) + 2 * (if pv then (1:Int) else 0) >
              (e.depth8 : Int) - 4
          ∨ gen ≠ e.genBound8 &&& GENERATION_MASK then
        (k % 65536,
         { depth8 := (d - DEPTH_ENTRY_OFFSET).toNat
           genBound8 := gen ||| ((if pv then 1 else 0) <<< 2) ||| b
           move16 := if m ≠ 0 ∨ k % 65536 ≠ key16 then m else e.move16
           value16 := toInt16 v
           eval16 := toInt16 ev })
      else (key16, if m ≠ 0 then { e with move16 := m } else e)) ∧
    (b = BOUND_EXACT →
      ttWrite key16 e k v pv b d m ev gen =
        (k % 65536,
         { depth8 := (d - DEPTH_ENTRY_OFFSET).toNat
           genBound8 := gen ||| ((if pv then 1 else 0) <<< 2) ||| b
           move16 := if m ≠ 0 ∨ k % 65536 ≠ key16 then m else e.move16
           value16 := toInt16 v
           eval16 := toInt16 ev })) ∧
    (ttWrite (ttWrite key16 e k v pv b d m ev gen).1
        (ttWrite key16 e k v pv b d m ev gen).2 k v pv b d m ev gen =
      ttWrite key16 e k v pv b d m ev gen) := by
  have hspec := ttWrite_spec key16 e k v pv b d m ev gen hgen hgen8 hgb
    hdlo hdhi
  refine ⟨hspec, ?_, ?_⟩
  · intro hb3
    rw [hspec, if_pos (Or.inl hb3)]
  · by_cases hc : b = BOUND_EXACT ∨ k % 65536 ≠ key16
        ∨ (d - DEPTH_ENTRY_OFFSET) + 2 * (if pv then (1:Int) else 0) >
            (e.depth8 : Int) - 4
        ∨ gen ≠ e.genBound8 &&& GENERATION_MASK
    · rw [hspec, if_pos hc]
      have hgb2 : (gen ||| ((if pv then 1 else 0) <<< 2) ||| b) < 256 := by
        apply lor_lt_256
        · apply lor_lt_256 hgen
          split <;> omega
        · omega
      have hspec2 := ttWrite_spec (k % 65536)
        { depth8 := (d - DEPTH_ENTRY_OFFSET).toNat
          genBound8 := gen ||| ((if pv then 1 else 0) <<< 2) ||| b
          move16 := if m ≠ 0 ∨ k % 65536 ≠ key16 then m else e.move16
          value16 := toInt16 v
          eval16 := toInt16 ev }
        k v pv b d m ev gen hgen hgen8 hgb2 hdlo hdhi
      have hdn : (((d - DEPTH_ENTRY_OFFSET).toNat : Int)) =
          d - DEPTH_ENTRY_OFFSET := by
        apply Int.toNat_of_nonneg
        simp only [DEPTH_ENTRY_OFFSET] at hdlo ⊢
        omega
      have hc2 : b = BOUND_EXACT ∨ k % 65536 ≠ k % 65536
          ∨ (d - DEPTH_ENTRY_OFFSET) + 2 * (if pv then (1:Int) else 0) >
              (((d - DEPTH_ENTRY_OFFSET).toNat : Nat) : Int) - 4
          ∨ gen ≠ (gen ||| ((if pv then 1 else 0) <<< 2) ||| b) &&&
              GENERATION_MASK := by
        refine Or.inr (Or.inr (Or.inl ?_))
        rw [hdn]
        split <;> omega
      rw [hspec2, if_pos hc2]
      by_cases hm : m = 0 <;> simp [hm]
    · rw [hspec, if_neg hc]
      have hk : k % 65536 = key16 := by
        by_contra hne
        exact hc (Or.inr (Or.inl hne))
      by_cases hm : m ≠ 0
      · rw [if_pos hm]
        have hspec2 := ttWrite_spec key16 { e with move16 := m }
          k v pv b d m ev gen hgen hgen8 hgb hdlo hdhi
        rw [hspec2, if_neg (by simpa using hc), if_pos hm]
      · rw [if_neg hm, hspec, if_neg hc, if_neg hm]

/-- Concrete instance of `ttWrite_replacement`: the idempotence conjunct
evaluated at an explicit entry and write, each hypothesis discharged. -/
theorem ttWrite_replacement_witness :
    ttWrite (ttWrite 5 ⟨10, 8, 7, 100, -50⟩ 70000 25 true 2 12 33 (-1) 16).1
        (ttWrite 5 ⟨10, 8, 7, 100, -50⟩ 70000 25 true 2 12 33 (-1) 16).2
        70000 25 true 2 12 33 (-1) 16 =
      ttWrite 5 ⟨10, 8, 7, 100, -50⟩ 70000 25 true 2 12 33 (-1) 16 :=
  (ttWrite_replacement 5 ⟨10, 8, 7, 100, -50⟩ 70000 25 true 2 12 33 (-1) 16
    (by decide) (by decide) (by decide) (by decide) (by decide)
    (by decide)).2.2

/-- C3 counterexample: on an all-zero cluster the first key shard matches a
search key whose low 16 bits are zero, yet `probe` returns `false` as its
first component (the matched entry is empty), refuting the claim that a
shard match always yields `true`. -/
theorem probe_emptyMatch_cex :
    (Cluster.mk (fun _ => 0) (fun _ => ⟨0, 0, 0, 0, 0⟩)).keys 0 = 0 % 65536 ∧
    (clusterProbe (Cluster.mk (fun _ => 0) (fun _ => ⟨0, 0, 0, 0, 0⟩)) 0 0).1 =
      false := by
  constructor <;> rfl

/-- C3 (amended): `probe` inspects the cluster at `mul_hi64(key,
cluster_count)` and compares each of the three shards to the low 16 bits of
the key; on the first match it returns that entry's occupancy flag
(`depth8 ≠ 0`, not necessarily `true`), the entry's data and a writer to
it; with no match it returns `false`, default data, and a writer to an
entry minimising `depth8 - relative_age(gen)` across the three. -/
theorem probe_characterization (cl : Cluster) (key gen : Nat) :
    (cl.keys 0 = key % 65536 →
      clusterProbe cl key gen =
        (is_occupied (cl.data 0), ttRead (cl.data 0), 0)) ∧
    (cl.keys 0 ≠ key % 65536 → cl.keys 1 = key % 65536 →
      clusterProbe cl key gen =
        (is_occupied (cl.data 1), ttRead (cl.data 1), 1)) ∧
    (cl.keys 0 ≠ key % 65536 → cl.keys 1 ≠ key % 65536 →
      cl.keys 2 = key % 65536 →
      clusterProbe cl key gen =
        (is_occupied (cl.data 2), ttRead (cl.data 2), 2)) ∧
    (cl.keys 0 ≠ key % 65536 → cl.keys 1 ≠ key % 65536 →
      cl.keys 2 ≠ key % 65536 →
      (clusterProbe cl key gen).1 = false ∧
      (clusterProbe cl key gen).2.1 =
        ⟨0, VALUE_NONE, VALUE_NONE, DEPTH_ENTRY_OFFSET, 0, false⟩ ∧
      replaceValue (cl.data (clusterProbe cl key gen).2.2) gen ≤
        replaceValue (cl.data 0) gen ∧
      replaceValue (cl.data (clusterProbe cl key gen).2.2) gen ≤
        replaceValue (cl.data 1) gen ∧
      replaceValue (cl.data (clusterProbe cl key gen).2.2) gen ≤
        replaceValue (cl.data 2) gen) ∧
    (∀ (table : Nat → Cluster) (clusterCount : Nat),
      tableProbe table clusterCount key gen =
        ((clusterProbe (table (mul_hi64 key clusterCount)) key gen).1,
         (clusterProbe (table (mul_hi64 key clusterCount)) key gen).2.1,
         (mul_hi64 key clusterCount,
          (clusterProbe (table (mul_hi64 key clusterCount)) key gen).2.2))) := by
  refine ⟨?_, ?_, ?_, ?_, fun table clusterCount => rfl⟩
  · intro h0
    simp only [clusterProbe]
    rw [if_pos h0]
  · intro h0 h1
    simp only [clusterProbe]
    rw [if_neg h0, if_pos h1]
  · intro h0 h1 h2
    simp only [clusterProbe]
    rw [if_neg h0, if_neg h1, if_pos h2]
  · intro h0 h1 h2
    have hpr : clusterProbe cl key gen =
        (false,
         ⟨0, VALUE_NONE, VALUE_NONE, DEPTH_ENTRY_OFFSET, 0, false⟩,
         if replaceValue
              (cl.data (if replaceValue (cl.data 0) gen >
                  replaceValue (cl.data 1) gen then 1 else 0)) gen >
            replaceValue (cl.data 2) gen then (2 : Fin 3)
         else if replaceValue (cl.data 0) gen >
             replaceValue (cl.data 1) gen then 1 else 0) := by
      simp only [clusterProbe]
      rw [if_neg h0, if_neg h1, if_neg h2]
    rw [hpr]
    refine ⟨rfl, rfl, ?_, ?_, ?_⟩ <;>
      (by_cases ha : replaceValue (cl.data 0) gen >
          replaceValue (cl.data 1) gen <;>
        simp only [if_pos, if_neg, ha, ite_true, ite_false] <;>
        split_ifs <;> omega)

/-- Concrete instance of `probe_characterization`: a hit on entry 1 of an
explicit cluster, and victim minimality on a full miss, with every
hypothesis discharged. -/
theorem probe_characterization_witness :
    clusterProbe
        (Cluster.mk (fun i => if i = 1 then 1 else 99)
          (fun i => ⟨(i : Nat), 0, 3, 4, 5⟩)) 1 0 =
      (is_occupied ⟨1, 0, 3, 4, 5⟩, ttRead ⟨1, 0, 3, 4, 5⟩, 1) ∧
    replaceValue
        ((fun i : Fin 3 => (⟨(i : Nat), 0, 3, 4, 5⟩ : TTData8))
          ((clusterProbe
            (Cluster.mk (fun _ => 7) (fun i => ⟨(i : Nat), 0, 3, 4, 5⟩))
            1 0).2.2)) 0 ≤
      replaceValue (⟨2, 0, 3, 4, 5⟩ : TTData8) 0 :=
  ⟨(probe_characterization
      (Cluster.mk (fun i => if i = 1 then 1 else 99)
        (fun i => ⟨(i : Nat), 0, 3, 4, 5⟩)) 1 0).2.1
      (by decide) (by decide),
   ((probe_characterization
      (Cluster.mk (fun _ => 7) (fun i => ⟨(i : Nat), 0, 3, 4, 5⟩)) 1 0).2.2.2.1
      (by decide) (by decide) (by decide)).2.2.2.2⟩

end TT

namespace Eng

/-- A `StateInfo` node as far as the host deque's discipline is concerned:
its `previous` link, expressed as an index into the deque (deque nodes
never relocate, so indices stand for their stable addresses). -/
structure StateNode where
  previous : Option Nat
deriving DecidableEq

/-- The engine's root-state deque (`StateListPtr`) together with the
position's current `StateInfo` pointer, as an index into the deque. -/
structure EngineStates where
  deque : List StateNode
  currentIdx : Nat
deriving DecidableEq

/-- Modelled from the spec: the `StateInfo`-linking step of
`Position::do_move` (its definition is absent from the snapshot): the
passed node's `previous` is pointed at the current state and the current
state becomes the passed node.  `Engine::set_position` always passes
`states->back()`, i.e. the last deque node. -/
def doMoveLink (s : EngineStates) : EngineStates :=
  let idx := s.deque.length - 1
  { deque := s.deque.set idx { previous := some s.currentIdx }
    currentIdx := idx }

/-- The move loop of `Engine::set_position` from `src/engine.cpp`: each
move string is resolved by `UCI::to_move`; a failed resolution
(`Move::none()`) stops the loop, a playable move is applied through
`pos.do_move(m, states->back())`.  Moves are abstracted to whether
`to_move` succeeds on them. -/
def setPositionLoop : List Bool → EngineStates → EngineStates
  | [], s => s
  | playable :: rest, s =>
    if playable then setPositionLoop rest (doMoveLink s) else s

/-- `Engine::set_position` from `src/engine.cpp`: drop the old state,
create a deque holding a single `StateInfo`, point the position's state
at it (`pos.set(fen, ..., &states->back())`), then run the move loop. -/
def setPosition (moves : List Bool) : EngineStates :=
  setPositionLoop moves { deque := [{ previous := none }], currentIdx := 0 }

lemma setPositionLoop_length (moves : List Bool) :
    ∀ s : EngineStates,
      (setPositionLoop moves s).deque.length = s.deque.length := by
  induction moves with
  | nil => intro s; rfl
  | cons p rest ih =>
    intro s
    by_cases hp : p = true
    · simp only [setPositionLoop, hp, if_true]
      rw [ih]
      simp [doMoveLink]
    · simp only [setPositionLoop]
      rw [if_neg (by simpa using hp)]

/-- C8: `Engine::set_position` never grows the StateInfo deque — it is
created with one node and `do_move` is always handed `states->back()`
without a prior `emplace_back`, so after `k` playable setup moves the
deque still holds exactly one node (not `k+1`), and that single node's
`previous` link points at the node itself. -/
theorem setPosition_single_node :
    (∀ moves : List Bool, (setPosition moves).deque.length = 1) ∧
    (setPosition [true]).deque = [{ previous := some 0 }] ∧
    (setPosition [true]).currentIdx = 0 := by
  refine ⟨fun moves => ?_, by decide, by decide⟩
  unfold setPosition
  rw [setPositionLoop_length]
  rfl

end Eng

namespace NNUE

/-- `std::clamp<BiasType>(x, 0, 127)` from the scalar path of
`FeatureTransformer::transform` (`src/nnue/nnue_feature_transformer.h`). -/
def clampB (x : Int) : Int := min (max x 0) 127

/-- The scalar output packing of `FeatureTransformer::transform`
(`src/nnue/nnue_feature_transformer.h`): for the output index
`offset + j` with `offset = (H/2)·p` and `j < H/2`, the u8 lane is
`unsigned(clamp(acc[persp][j]) * clamp(acc[persp][j + H/2])) / 128`,
where `persp` is the side to move for `p = 0` and its opponent for
`p = 1`. -/
def transformOutput (H : Nat) (acc : Bool → Nat → Int) (stm : Bool) :
    Nat → Nat :=
  fun idx =>
    let half := H / 2
    let p := idx / half
    let j := idx % half
    let persp := if p = 0 then stm else !stm
    (clampB (acc persp j) * clampB (acc persp (j + half))).toNat / 128

/-- `FeatureTransformer::transform` (`src/nnue/nnue_feature_transformer.h`,
scalar path): returns the PSQT value
`(psqtAccumulation[stm][bucket] - psqtAccumulation[~stm][bucket]) / 2`
(C++ truncating division) and, unless `psqtOnly`, the packed u8 output
buffer. -/
def transform (H : Nat) (acc psqtAcc : Bool → Nat → Int) (stm : Bool)
    (bucket : Nat) (psqtOnly : Bool) : Int × Option (Nat → Nat) :=
  let psqt := Int.tdiv (psqtAcc stm bucket - psqtAcc (!stm) bucket) 2
  if psqtOnly then (psqt, none)
  else (psqt, some (transformOutput H acc stm))

/-- `Network::evaluate` from `src/nnue/network.cpp`: bucket is
`(piece count - 1) / 4`; the per-bucket layer stack (whose architecture
header is absent from the snapshot) is abstracted as `propagate`;
`outputScale` abstracts `OutputScale` from the absent
`nnue_architecture.h`; `delta = 24` as in the source. -/
def networkEvaluate (outputScale : Int) (H : Nat)
    (acc psqtAcc : Bool → Nat → Int) (stm : Bool) (pieceCount : Nat)
    (adjusted : Bool) (psqtOnly : Bool)
    (propagate : Nat → (Nat → Nat) → Int) : Int :=
  let bucket := (pieceCount - 1) / 4
  let t := transform H acc psqtAcc stm bucket psqtOnly
  let psqt := t.1
  let positional :=
    if psqtOnly then 0
    else match t.2 with
      | some out => propagate bucket out
      | none => 0
  if adjusted then
    Int.tdiv ((1024 - 24) * psqt + (1024 + 24) * positional)
      (1024 * outputScale)
  else Int.tdiv (psqt + positional) outputScale

/-- C6: with both perspectives computed, the transform writes
`(clamp(acc[p][j],0,127) · clamp(acc[p][j+H/2],0,127)) >> 7` to output
index `(H/2)·p + j` (side to move first), returns the PSQT value
`(psqt_acc[stm][b] - psqt_acc[other][b]) / 2`, the bucket is
`(piece count - 1)/4`, and a PSQT-only call returns that value without
evaluating any layer stack. -/
theorem featureTransform_output (H : Nat) (acc psqtAcc : Bool → Nat → Int)
    (stm : Bool) (bucket : Nat) (pieceCount : Nat) (outputScale : Int)
    (p j : Nat) (hp : p < 2) (hj : j < H / 2) :
    ((transform H acc psqtAcc stm bucket false).2.map
        (fun out => out ((H / 2) * p + j)) =
      some ((clampB (acc (if p = 0 then stm else !stm) j) *
          clampB (acc (if p = 0 then stm else !stm) (j + H / 2))).toNat
        >>> 7)) ∧
    (∀ po : Bool, (transform H acc psqtAcc stm bucket po).1 =
      Int.tdiv (psqtAcc stm bucket - psqtAcc (!stm) bucket) 2) ∧
    ((transform H acc psqtAcc stm bucket true).2 = none) ∧
    (∀ (adjusted : Bool) (prop1 prop2 : Nat → (Nat → Nat) → Int),
      networkEvaluate outputScale H acc psqtAcc stm pieceCount adjusted
          true prop1 =
        networkEvaluate outputScale H acc psqtAcc stm pieceCount adjusted
          true prop2) ∧
    (∀ prop : Nat → (Nat → Nat) → Int,
      networkEvaluate outputScale H acc psqtAcc stm pieceCount false
          true prop =
        Int.tdiv
          (transform H acc psqtAcc stm ((pieceCount - 1) / 4) true).1
          outputScale) := by
  have hhalf : 0 < H / 2 := by omega
  refine ⟨?_, ?_, ?_, ?_, ?_⟩
  · have hidx : (H / 2) * p + j = j + (H / 2) * p := Nat.add_comm _ _
    have hdiv : (j + (H / 2) * p) / (H / 2) = p := by
      rw [Nat.add_mul_div_left _ _ hhalf, Nat.div_eq_of_lt hj,
        Nat.zero_add]
    have hmod : (j + (H / 2) * p) % (H / 2) = j := by
      rw [Nat.add_mul_mod_self_left, Nat.mod_eq_of_lt hj]
    simp only [transform, transformOutput, Bool.false_eq_true, if_false,
      Option.map_some']
    rw [hidx, hdiv, hmod, Nat.shiftRight_eq_div_pow]
  · intro po
    by_cases hpo : po = true <;> simp [transform, hpo]
  · simp [transform]
  · intro adjusted prop1 prop2
    simp [networkEvaluate]
  · intro prop
    simp [networkEvaluate]

/-- Concrete instance of `featureTransform_output` at `H = 8`, `p = 1`,
`j = 2`, discharging each hypothesis. -/
theorem featureTransform_output_witness :
    (transform 8 (fun _ i => (100 * i : Int) - 150) (fun _ _ => 9) false 0
        false).2.map (fun out => out ((8 / 2) * 1 + 2)) =
      some ((clampB ((fun (_ : Bool) (i : Nat) => (100 * i : Int) - 150)
            true 2) *
          clampB ((fun (_ : Bool) (i : Nat) => (100 * i : Int) - 150)
            true (2 + 8 / 2))).toNat >>> 7) :=
  (featureTransform_output 8 (fun _ i => (100 * i : Int) - 150)
    (fun _ _ => 9) false 0 32 16 1 2 (by decide) (by decide)).1

/-- Modelled from the spec: `SQ_NONE` (64) from the absent `types.h`. -/
def SQ_NONE : Nat := 64

/-- Modelled from the spec: the `DirtyPiece` record (absent `types.h`)
holding the net changes of one ply for NNUE — the moved piece `pc` going
`fromSq → to`, an optionally removed piece (`removePc` at `removeSq`, the
capture) and an optionally added piece (`addPc` at `addSq`, the
promotion); absent squares are `SQ_NONE`. -/
structure DirtyPiece where
  pc : Nat
  fromSq : Nat
  toSq : Nat
  removePc : Nat
  removeSq : Nat
  addPc : Nat
  addSq : Nat
deriving DecidableEq

/-- Modelled from the spec: `append_changed` of the HalfKA (PSQ) feature
set (absent feature-set header): the moved piece's origin and the removed
piece's square contribute removed feature indices, the destination and
added squares contribute added indices.  `mi` is `make_index` with the
perspective and king square (fixed during one pass) applied. -/
def appendChangedPSQ (mi : Nat → Nat → Nat) (dp : DirtyPiece) :
    List Nat × List Nat :=
  ((if dp.fromSq ≠ SQ_NONE then [mi dp.pc dp.fromSq] else []) ++
     (if dp.removeSq ≠ SQ_NONE then [mi dp.removePc dp.removeSq] else []),
   (if dp.toSq ≠ SQ_NONE then [mi dp.pc dp.toSq] else []) ++
     (if dp.addSq ≠ SQ_NONE then [mi dp.addPc dp.addSq] else []))

/-- One elementwise `vec_add_16` pass over a row with wrap-around int16
lanes (`fused_row_reduce` / the scalar `+=` loops of
`src/nnue/nnue_accumulator.cpp`). -/
def rowAdd16 (acc col : Nat → Int) : Nat → Int :=
  fun i => wrapW 16 (acc i + col i)

/-- Elementwise `vec_sub_16` with wrap-around int16 lanes. -/
def rowSub16 (acc col : Nat → Int) : Nat → Int :=
  fun i => wrapW 16 (acc i - col i)

/-- Elementwise `vec_add_psqt_32` with wrap-around int32 lanes. -/
def rowAdd32 (acc col : Nat → Int) : Nat → Int :=
  fun i => wrapW 32 (acc i + col i)

/-- Elementwise `vec_sub_psqt_32` with wrap-around int32 lanes. -/
def rowSub32 (acc col : Nat → Int) : Nat → Int :=
  fun i => wrapW 32 (acc i - col i)

/-- The `Accumulator` of `src/nnue/nnue_accumulator_new.h`: per
perspective, the int16 accumulation row, the int32 PSQT row and the
computed flag. -/
structure Accumulator where
  accumulation : Bool → Nat → Int
  psqtAccumulation : Bool → Nat → Int
  computed : Bool → Bool

/-- `AccumulatorStateSimple` over the PSQ feature set: an accumulator and
the ply's `DirtyPiece` diff. -/
structure AccState where
  accumulator : Accumulator
  diff : DirtyPiece

/-- The PSQ feature transformer's weight columns (`weights` and
`psqtWeights` of `FeatureTransformer`), indexed by feature. -/
structure FT where
  weights : Nat → Nat → Int
  psqtWeights : Nat → Nat → Int

/-- Overwrite one perspective's row. -/
def updFun (p : Bool) (r : Nat → Int) (f : Bool → Nat → Int) :
    Bool → Nat → Int :=
  fun c => if c = p then r else f c

/-- Mark one perspective computed (`acc().computed[perspective] = true`). -/
def setComputed (p : Bool) (a : Accumulator) : Accumulator :=
  { a with computed := fun c => if c = p then true else a.computed c }

/-- `fused<Vec16Wrapper, ops...>` of `src/nnue/simd.h` folded over a term
list: ops apply left to right, each `(true, f)` adding and each
`(false, f)` subtracting the weight column of feature `f`. -/
def applyTerms16 (w : Nat → Nat → Int) (init : Nat → Int)
    (terms : List (Bool × Nat)) : Nat → Int :=
  terms.foldl
    (fun acc t => if t.1 then rowAdd16 acc (w t.2) else rowSub16 acc (w t.2))
    init

/-- `fused<Vec32Wrapper, ops...>` folded over a term list (PSQT rows). -/
def applyTerms32 (w : Nat → Nat → Int) (init : Nat → Int)
    (terms : List (Bool × Nat)) : Nat → Int :=
  terms.foldl
    (fun acc t => if t.1 then rowAdd32 acc (w t.2) else rowSub32 acc (w t.2))
    init

/-- `AccumulatorUpdateContext::apply<ops...>` of
`src/nnue/nnue_accumulator.cpp`: write into the target accumulator, for
the given perspective, the source row reduced with the op/feature terms
(both the int16 accumulation and the int32 PSQT rows). -/
def applyOps (ft : FT) (p : Bool) (src tgt : Accumulator)
    (terms : List (Bool × Nat)) : Accumulator :=
  { tgt with
    accumulation :=
      updFun p (applyTerms16 ft.weights (src.accumulation p) terms)
        tgt.accumulation
    psqtAccumulation :=
      updFun p (applyTerms32 ft.psqtWeights (src.psqtAccumulation p) terms)
        tgt.psqtAccumulation }

/-- `update_accumulator_incremental<true, PSQFeatureSet>` of
`src/nnue/nnue_accumulator.cpp`: gather the target diff's changed indices
and apply the branch matching the list sizes (1/1 → `Add,Sub`; 1 added and
2 removed → `Add,Sub,Sub`; 2/2 → `Add,Add,Sub,Sub`), then mark the
perspective computed. -/
def singleForwardPSQ (ft : FT) (mi : Nat → Nat → Nat) (p : Bool)
    (computedSt target : AccState) : AccState :=
  let ra := appendChangedPSQ mi target.diff
  let newAcc :=
    match ra.2, ra.1 with
    | [a0], [r0] =>
      applyOps ft p computedSt.accumulator target.accumulator
        [(true, a0), (false, r0)]
    | [a0], [r0, r1] =>
      applyOps ft p computedSt.accumulator target.accumulator
        [(true, a0), (false, r0), (false, r1)]
    | [a0, a1], [r0, r1] =>
      applyOps ft p computedSt.accumulator target.accumulator
        [(true, a0), (true, a1), (false, r0), (false, r1)]
    | _, _ => target.accumulator
  { target with accumulator := setComputed p newAcc }

/-- `double_inc_update` (PSQ overload) of
`src/nnue/nnue_accumulator.cpp`: append the changed indices of the middle
ply then of the target ply, apply `Add,Sub,Sub` or `Add,Sub,Sub,Sub` from
the computed accumulator straight to the target, and mark it computed. -/
def doubleIncUpdatePSQ (ft : FT) (mi : Nat → Nat → Nat) (p : Bool)
    (middle target computedSt : AccState) : AccState :=
  let rm := appendChangedPSQ mi middle.diff
  let rt := appendChangedPSQ mi target.diff
  let removed := rm.1 ++ rt.1
  let added := rm.2 ++ rt.2
  let newAcc :=
    match added, removed with
    | [a0], [r0, r1] =>
      applyOps ft p computedSt.accumulator target.accumulator
        [(true, a0), (false, r0), (false, r1)]
    | [a0], [r0, r1, r2] =>
      applyOps ft p computedSt.accumulator target.accumulator
        [(true, a0), (false, r0), (false, r1), (false, r2)]
    | _, _ => target.accumulator
  { target with accumulator := setComputed p newAcc }

/-- The per-thread PSQ accumulator stack (`UpdateHalfka`): `size` live
entries of an index-addressed array. -/
structure HalfkaStack where
  size : Nat
  acc : Nat → AccState

/-- Replace the stack entry at one index. -/
def setAcc (s : HalfkaStack) (i : Nat) (st : AccState) : HalfkaStack :=
  { s with acc := fun j => if j = i then st else s.acc j }

/-- Replace only the diff of the stack entry at one index. -/
def setDiff (s : HalfkaStack) (i : Nat) (d : DirtyPiece) : HalfkaStack :=
  setAcc s i { s.acc i with diff := d }

/-- The fused branch of `UpdateHalfka::forward_update_incremental`
(`src/nnue/nnue_accumulator.cpp`): blank the shared square in both plies'
diffs (`dp1.to = dp2.remove_sq = SQ_NONE`), run `double_inc_update`
against `acc[next-1]`, then restore both fields to the capture square. -/
def fusedStepPSQ (ft : FT) (mi : Nat → Nat → Nat) (p : Bool)
    (s : HalfkaStack) (next : Nat) : HalfkaStack :=
  let captureSq := (s.acc next).diff.toSq
  let s1 := setDiff s next { (s.acc next).diff with toSq := SQ_NONE }
  let s2 := setDiff s1 (next + 1)
    { (s1.acc (next + 1)).diff with removeSq := SQ_NONE }
  let s3 := setAcc s2 (next + 1)
    (doubleIncUpdatePSQ ft mi p (s2.acc next) (s2.acc (next + 1))
      (s2.acc (next - 1)))
  let s4 := setDiff s3 next { (s3.acc next).diff with toSq := captureSq }
  setDiff s4 (next + 1)
    { (s4.acc (next + 1)).diff with removeSq := captureSq }

/-- The plain branch: `update_accumulator_incremental<true>` of ply `next`
against ply `next - 1`. -/
def singleStepPSQ (ft : FT) (mi : Nat → Nat → Nat) (p : Bool)
    (s : HalfkaStack) (next : Nat) : HalfkaStack :=
  setAcc s next (singleForwardPSQ ft mi p (s.acc (next - 1)) (s.acc next))

/-- The loop body of `UpdateHalfka::forward_update_incremental`
(`src/nnue/nnue_accumulator.cpp`): from `next`, either fuse two plies —
when the ply's `to` square equals the following ply's `remove_sq` — and
skip one index, or run the single incremental update.  `fuel` bounds the
iteration count (the C++ loop runs `next` up to `size`). -/
def forwardLoopHalfka (ft : FT) (mi : Nat → Nat → Nat) (p : Bool) :
    Nat → Nat → HalfkaStack → HalfkaStack
  | 0, _, s => s
  | fuel + 1, next, s =>
    if next < s.size then
      if next + 1 < s.size ∧ (s.acc next).diff.toSq ≠ SQ_NONE ∧
          (s.acc next).diff.toSq = (s.acc (next + 1)).diff.removeSq then
        forwardLoopHalfka ft mi p fuel (next + 2) (fusedStepPSQ ft mi p s next)
      else
        forwardLoopHalfka ft mi p fuel (next + 1) (singleStepPSQ ft mi p s next)
    else s

/-- `UpdateHalfka::forward_update_incremental`: walk from `start + 1` to
the top of the stack. -/
def forwardUpdateHalfka (ft : FT) (mi : Nat → Nat → Nat) (p : Bool)
    (s : HalfkaStack) (start : Nat) : HalfkaStack :=
  forwardLoopHalfka ft mi p s.size (start + 1) s

/-- Modelled from the spec: the diff record of the Threat feature set
(absent feature-set header); the forward pass reads only its
threatening-square set, kept here as a bitboard predicate, with the rest
of the record abstracted as `payload`. -/
structure ThreatDiff where
  threateningSqs : Nat → Bool
  payload : Nat

/-- `AccumulatorStateSimple` over the Threat feature set. -/
structure TAccState where
  accumulator : Accumulator
  diff : ThreatDiff

/-- `AccumulatorUpdateContext::apply(added, removed)` of
`src/nnue/nnue_accumulator.cpp` (scalar path): copy the source row, then
subtract every removed column, then add every added column — int16
accumulation against `wT`, int32 PSQT against `pwT`. -/
def applyLists (wT pwT : Nat → Nat → Int) (p : Bool)
    (src tgt : Accumulator) (removed added : List Nat) : Accumulator :=
  { tgt with
    accumulation :=
      updFun p
        (added.foldl (fun r idx => rowAdd16 r (wT idx))
          (removed.foldl (fun r idx => rowSub16 r (wT idx))
            (src.accumulation p)))
        tgt.accumulation
    psqtAccumulation :=
      updFun p
        (added.foldl (fun r idx => rowAdd32 r (pwT idx))
          (removed.foldl (fun r idx => rowSub32 r (pwT idx))
            (src.psqtAccumulation p)))
        tgt.psqtAccumulation }

/-- `update_accumulator_incremental<true, ThreatFeatureSet>`: the threat
feature set's changed-index computation (absent from the snapshot) is
abstracted as `tappend`; its output lists are applied and the perspective
marked computed. -/
def singleForwardThreat (wT pwT : Nat → Nat → Int)
    (tappend : ThreatDiff → List Nat × List Nat) (p : Bool)
    (computedSt target : TAccState) : TAccState :=
  let ra := tappend target.diff
  { target with
    accumulator :=
      setComputed p
        (applyLists wT pwT p computedSt.accumulator target.accumulator
          ra.1 ra.2) }

/-- `double_inc_update` (Threat overload): the two fused
`append_changed_indices` calls (with `FusedUpdateData` carrying the next
ply's remove square) are abstracted as `tappendFused` applied to both
diffs and that square; the combined lists are applied in one pass. -/
def doubleIncUpdateThreat (wT pwT : Nat → Nat → Int)
    (tappendFused : ThreatDiff → ThreatDiff → Nat → List Nat × List Nat)
    (p : Bool) (middle target computedSt : TAccState) (dp2removed : Nat) :
    TAccState :=
  let ra := tappendFused middle.diff target.diff dp2removed
  { target with
    accumulator :=
      setComputed p
        (applyLists wT pwT p computedSt.accumulator target.accumulator
          ra.1 ra.2) }

/-- The per-thread Threat accumulator stack (`UpdateThreats`). -/
structure ThreatStack where
  size : Nat
  acc : Nat → TAccState

/-- Replace one Threat stack entry. -/
def setTAcc (s : ThreatStack) (i : Nat) (st : TAccState) : ThreatStack :=
  { s with acc := fun j => if j = i then st else s.acc j }

/-- The fused branch of `UpdateThreats::forward_update_incremental`:
`double_inc_update` of two plies against `acc[next-1]`, keyed by the next
PSQ ply's remove square; the PSQ stack (`psqtAcc`) is only read. -/
def fusedStepThreat (wT pwT : Nat → Nat → Int)
    (tappendFused : ThreatDiff → ThreatDiff → Nat → List Nat × List Nat)
    (p : Bool) (psqtAcc : Nat → AccState) (s : ThreatStack) (next : Nat) :
    ThreatStack :=
  setTAcc s (next + 1)
    (doubleIncUpdateThreat wT pwT tappendFused p (s.acc next)
      (s.acc (next + 1)) (s.acc (next - 1))
      (psqtAcc (next + 1)).diff.removeSq)

/-- The plain Threat branch:
`update_accumulator_incremental<true, ThreatFeatureSet>`. -/
def singleStepThreat (wT pwT : Nat → Nat → Int)
    (tappend : ThreatDiff → List Nat × List Nat) (p : Bool)
    (s : ThreatStack) (next : Nat) : ThreatStack :=
  setTAcc s next
    (singleForwardThreat wT pwT tappend p (s.acc (next - 1)) (s.acc next))

/-- The loop body of `UpdateThreats::forward_update_incremental`: fuse two
plies when the next PSQ ply's remove square is set and lies in this ply's
threatening-square set, else apply the single incremental update. -/
def forwardLoopThreat (wT pwT : Nat → Nat → Int)
    (tappend : ThreatDiff → List Nat × List Nat)
    (tappendFused : ThreatDiff → ThreatDiff → Nat → List Nat × List Nat)
    (p : Bool) (psqtAcc : Nat → AccState) :
    Nat → Nat → ThreatStack → ThreatStack
  | 0, _, s => s
  | fuel + 1, next, s =>
    if next < s.size then
      if next + 1 < s.size ∧ (psqtAcc (next + 1)).diff.removeSq ≠ SQ_NONE ∧
          (s.acc next).diff.threateningSqs
            ((psqtAcc (next + 1)).diff.removeSq) then
        forwardLoopThreat wT pwT tappend tappendFused p psqtAcc fuel
          (next + 2) (fusedStepThreat wT pwT tappendFused p psqtAcc s next)
      else
        forwardLoopThreat wT pwT tappend tappendFused p psqtAcc fuel
          (next + 1) (singleStepThreat wT pwT tappend p s next)
    else s

/-- `UpdateThreats::forward_update_incremental`: walk from `start + 1` to
the top of the stack. -/
def forwardUpdateThreats (wT pwT : Nat → Nat → Int)
    (tappend : ThreatDiff → List Nat × List Nat)
    (tappendFused : ThreatDiff → ThreatDiff → Nat → List Nat × List Nat)
    (p : Bool) (psqtAcc : Nat → AccState) (s : ThreatStack) (start : Nat) :
    ThreatStack :=
  forwardLoopThreat wT pwT tappend tappendFused p psqtAcc s.size
    (start + 1) s

lemma setAcc_acc (s : HalfkaStack) (j : Nat) (st : AccState) (i : Nat) :
    (setAcc s j st).acc i = if i = j then st else s.acc i := rfl

lemma doubleIncUpdatePSQ_diff (ft : FT) (mi : Nat → Nat → Nat) (p : Bool)
    (middle target computedSt : AccState) :
    (doubleIncUpdatePSQ ft mi p middle target computedSt).diff =
      target.diff := rfl

lemma singleForwardPSQ_diff (ft : FT) (mi : Nat → Nat → Nat) (p : Bool)
    (computedSt target : AccState) :
    (singleForwardPSQ ft mi p computedSt target).diff = target.diff := rfl

lemma fusedStepPSQ_size (ft : FT) (mi : Nat → Nat → Nat) (p : Bool)
    (s : HalfkaStack) (next : Nat) :
    (fusedStepPSQ ft mi p s next).size = s.size := rfl

lemma fusedStepPSQ_acc_other (ft : FT) (mi : Nat → Nat → Nat) (p : Bool)
    (s : HalfkaStack) (next i : Nat) (hi : i ≠ next) (hi2 : i ≠ next + 1) :
    (fusedStepPSQ ft mi p s next).acc i = s.acc i := by
  simp [fusedStepPSQ, setDiff, setAcc, hi, hi2]

lemma fusedStepPSQ_diff (ft : FT) (mi : Nat → Nat → Nat) (p : Bool)
    (s : HalfkaStack) (next i : Nat)
    (hg : (s.acc next).diff.toSq = (s.acc (next + 1)).diff.removeSq) :
    ((fusedStepPSQ ft mi p s next).acc i).diff = (s.acc i).diff := by
  by_cases hi : i = next
  · subst hi
    simp [fusedStepPSQ, setDiff, setAcc, Nat.succ_ne_self]
  · by_cases hi2 : i = next + 1
    · subst hi2
      have hne0 : ¬(next = next + 1) := by omega
      have hne1 : ¬(next + 1 = next) := by omega
      have hne2 : ¬(next - 1 = next + 1) := by omega
      simp only [fusedStepPSQ, setDiff, setAcc, doubleIncUpdatePSQ_diff,
        hne0, hne1, hne2, eq_self_iff_true, if_true, if_false, ite_true,
        ite_false, reduceIte]
      rw [hg]
    · rw [fusedStepPSQ_acc_other ft mi p s next i hi hi2]

lemma singleStepPSQ_size (ft : FT) (mi : Nat → Nat → Nat) (p : Bool)
    (s : HalfkaStack) (next : Nat) :
    (singleStepPSQ ft mi p s next).size = s.size := rfl

lemma singleStepPSQ_acc_other (ft : FT) (mi : Nat → Nat → Nat) (p : Bool)
    (s : HalfkaStack) (next i : Nat) (hi : i ≠ next) :
    (singleStepPSQ ft mi p s next).acc i = s.acc i := by
  simp [singleStepPSQ, setAcc, hi]

lemma singleStepPSQ_diff (ft : FT) (mi : Nat → Nat → Nat) (p : Bool)
    (s : HalfkaStack) (next i : Nat) :
    ((singleStepPSQ ft mi p s next).acc i).diff = (s.acc i).diff := by
  by_cases hi : i = next
  · subst hi
    simp [singleStepPSQ, setAcc, singleForwardPSQ_diff]
  · rw [singleStepPSQ_acc_other ft mi p s next i hi]

lemma forwardLoopHalfka_frame (ft : FT) (mi : Nat → Nat → Nat) (p : Bool) :
    ∀ (fuel next : Nat) (s : HalfkaStack),
      (forwardLoopHalfka ft mi p fuel next s).size = s.size ∧
      (∀ i, ((forwardLoopHalfka ft mi p fuel next s).acc i).diff =
        (s.acc i).diff) ∧
      (∀ i, i < next → (forwardLoopHalfka ft mi p fuel next s).acc i =
        s.acc i) ∧
      (∀ i, s.size ≤ i → (forwardLoopHalfka ft mi p fuel next s).acc i =
        s.acc i) := by
  intro fuel
  induction fuel with
  | zero =>
    intro next s
    exact ⟨rfl, fun _ => rfl, fun _ _ => rfl, fun _ _ => rfl⟩
  | succ fuel ih =>
    intro next s
    by_cases h1 : next < s.size
    · by_cases h2 : next + 1 < s.size ∧ (s.acc next).diff.toSq ≠ SQ_NONE ∧
          (s.acc next).diff.toSq = (s.acc (next + 1)).diff.removeSq
      · have hstep : forwardLoopHalfka ft mi p (fuel + 1) next s =
            forwardLoopHalfka ft mi p fuel (next + 2)
              (fusedStepPSQ ft mi p s next) := by
          simp only [forwardLoopHalfka]
          rw [if_pos h1, if_pos h2]
        obtain ⟨ih1, ih2, ih3, ih4⟩ := ih (next + 2) (fusedStepPSQ ft mi p s next)
        rw [hstep]
        refine ⟨?_, ?_, ?_, ?_⟩
        · rw [ih1, fusedStepPSQ_size]
        · intro i
          rw [ih2 i, fusedStepPSQ_diff ft mi p s next i h2.2.2]
        · intro i hi
          rw [ih3 i (by omega),
            fusedStepPSQ_acc_other ft mi p s next i (by omega) (by omega)]
        · intro i hi
          have hsz : (fusedStepPSQ ft mi p s next).size ≤ i := by
            rw [fusedStepPSQ_size]; exact hi
          rw [ih4 i hsz,
            fusedStepPSQ_acc_other ft mi p s next i (by omega) (by omega)]
      · have hstep : forwardLoopHalfka ft mi p (fuel + 1) next s =
            forwardLoopHalfka ft mi p fuel (next + 1)
              (singleStepPSQ ft mi p s next) := by
          simp only [forwardLoopHalfka]
          rw [if_pos h1, if_neg h2]
        obtain ⟨ih1, ih2, ih3, ih4⟩ := ih (next + 1) (singleStepPSQ ft mi p s next)
        rw [hstep]
        refine ⟨?_, ?_, ?_, ?_⟩
        · rw [ih1, singleStepPSQ_size]
        · intro i
          rw [ih2 i, singleStepPSQ_diff]
        · intro i hi
          rw [ih3 i (by omega),
            singleStepPSQ_acc_other ft mi p s next i (by omega)]
        · intro i hi
          have hsz : (singleStepPSQ ft mi p s next).size ≤ i := by
            rw [singleStepPSQ_size]; exact hi
          rw [ih4 i hsz,
            singleStepPSQ_acc_other ft mi p s next i (by omega)]
    · have hstep : forwardLoopHalfka ft mi p (fuel + 1) next s = s := by
        simp only [forwardLoopHalfka]
        rw [if_neg h1]
      rw [hstep]
      exact ⟨rfl, fun _ => rfl, fun _ _ => rfl, fun _ _ => rfl⟩

lemma doubleIncUpdateThreat_diff (wT pwT : Nat → Nat → Int)
    (tappendFused : ThreatDiff → ThreatDiff → Nat → List Nat × List Nat)
    (p : Bool) (middle target computedSt : TAccState) (dp2removed : Nat) :
    (doubleIncUpdateThreat wT pwT tappendFused p middle target computedSt
      dp2removed).diff = target.diff := rfl

lemma singleForwardThreat_diff (wT pwT : Nat → Nat → Int)
    (tappend : ThreatDiff → List Nat × List Nat) (p : Bool)
    (computedSt target : TAccState) :
    (singleForwardThreat wT pwT tappend p computedSt target).diff =
      target.diff := rfl

lemma fusedStepThreat_acc_other (wT pwT : Nat → Nat → Int)
    (tappendFused : ThreatDiff → ThreatDiff → Nat → List Nat × List Nat)
    (p : Bool) (psqtAcc : Nat → AccState) (s : ThreatStack) (next i : Nat)
    (hi : i ≠ next + 1) :
    (fusedStepThreat wT pwT tappendFused p psqtAcc s next).acc i =
      s.acc i := by
  simp [fusedStepThreat, setTAcc, hi]

lemma fusedStepThreat_diff (wT pwT : Nat → Nat → Int)
    (tappendFused : ThreatDiff → ThreatDiff → Nat → List Nat × List Nat)
    (p : Bool) (psqtAcc : Nat → AccState) (s : ThreatStack) (next i : Nat) :
    ((fusedStepThreat wT pwT tappendFused p psqtAcc s next).acc i).diff =
      (s.acc i).diff := by
  by_cases hi : i = next + 1
  · subst hi
    simp [fusedStepThreat, setTAcc, doubleIncUpdateThreat_diff]
  · rw [fusedStepThreat_acc_other wT pwT tappendFused p psqtAcc s next i hi]

lemma singleStepThreat_acc_other (wT pwT : Nat → Nat → Int)
    (tappend : ThreatDiff → List Nat × List Nat) (p : Bool)
    (s : ThreatStack) (next i : Nat) (hi : i ≠ next) :
    (singleStepThreat wT pwT tappend p s next).acc i = s.acc i := by
  simp [singleStepThreat, setTAcc, hi]

lemma singleStepThreat_diff (wT pwT : Nat → Nat → Int)
    (tappend : ThreatDiff → List Nat × List Nat) (p : Bool)
    (s : ThreatStack) (next i : Nat) :
    ((singleStepThreat wT pwT tappend p s next).acc i).diff =
      (s.acc i).diff := by
  by_cases hi : i = next
  · subst hi
    simp [singleStepThreat, setTAcc, singleForwardThreat_diff]
  · rw [singleStepThreat_acc_other wT pwT tappend p s next i hi]

lemma forwardLoopThreat_frame (wT pwT : Nat → Nat → Int)
    (tappend : ThreatDiff → List Nat × List Nat)
    (tappendFused : ThreatDiff → ThreatDiff → Nat → List Nat × List Nat)
    (p : Bool) (psqtAcc : Nat → AccState) :
    ∀ (fuel next : Nat) (s : ThreatStack),
      (forwardLoopThreat wT pwT tappend tappendFused p psqtAcc fuel next
        s).size = s.size ∧
      (∀ i, ((forwardLoopThreat wT pwT tappend tappendFused p psqtAcc fuel
        next s).acc i).diff = (s.acc i).diff) ∧
      (∀ i, i < next → (forwardLoopThreat wT pwT tappend tappendFused p
        psqtAcc fuel next s).acc i = s.acc i) ∧
      (∀ i, s.size ≤ i → (forwardLoopThreat wT pwT tappend tappendFused p
        psqtAcc fuel next s).acc i = s.acc i) := by
  intro fuel
  induction fuel with
  | zero =>
    intro next s
    exact ⟨rfl, fun _ => rfl, fun _ _ => rfl, fun _ _ => rfl⟩
  | succ fuel ih =>
    intro next s
    by_cases h1 : next < s.size
    · by_cases h2 : next + 1 < s.size ∧
          (psqtAcc (next + 1)).diff.removeSq ≠ SQ_NONE ∧
          (s.acc next).diff.threateningSqs
            ((psqtAcc (next + 1)).diff.removeSq)
      · have hstep : forwardLoopThreat wT pwT tappend tappendFused p
            psqtAcc (fuel + 1) next s =
            forwardLoopThreat wT pwT tappend tappendFused p psqtAcc fuel
              (next + 2) (fusedStepThreat wT pwT tappendFused p psqtAcc s
                next) := by
          simp only [forwardLoopThreat]
          rw [if_pos h1, if_pos h2]
        obtain ⟨ih1, ih2, ih3, ih4⟩ := ih (next + 2)
          (fusedStepThreat wT pwT tappendFused p psqtAcc s next)
        rw [hstep]
        refine ⟨ih1, ?_, ?_, ?_⟩
        · intro i
          rw [ih2 i, fusedStepThreat_diff]
        · intro i hi
          rw [ih3 i (by omega),
            fusedStepThreat_acc_other wT pwT tappendFused p psqtAcc s next
              i (by omega)]
        · intro i hi
          rw [ih4 i hi,
            fusedStepThreat_acc_other wT pwT tappendFused p psqtAcc s next
              i (by omega)]
      · have hstep : forwardLoopThreat wT pwT tappend tappendFused p
            psqtAcc (fuel + 1) next s =
            forwardLoopThreat wT pwT tappend tappendFused p psqtAcc fuel
              (next + 1) (singleStepThreat wT pwT tappend p s next) := by
          simp only [forwardLoopThreat]
          rw [if_pos h1, if_neg h2]
        obtain ⟨ih1, ih2, ih3, ih4⟩ := ih (next + 1)
          (singleStepThreat wT pwT tappend p s next)
        rw [hstep]
        refine ⟨ih1, ?_, ?_, ?_⟩
        · intro i
          rw [ih2 i, singleStepThreat_diff]
        · intro i hi
          rw [ih3 i (by omega),
            singleStepThreat_acc_other wT pwT tappend p s next i (by omega)]
        · intro i hi
          rw [ih4 i hi,
            singleStepThreat_acc_other wT pwT tappend p s next i (by omega)]
    · have hstep : forwardLoopThreat wT pwT tappend tappendFused p psqtAcc
          (fuel + 1) next s = s := by
        simp only [forwardLoopThreat]
        rw [if_neg h1]
      rw [hstep]
      exact ⟨rfl, fun _ => rfl, fun _ _ => rfl, fun _ _ => rfl⟩

/-- C10: the forward passes over both accumulator stacks change only the
accumulators of the traversed entries: every per-ply diff record equals
its value on entry when the pass returns (the fused PSQ path, which
temporarily blanks `dp1.to` and `dp2.remove_sq`, always restores them),
entries at or below the start index and entries beyond the stack size are
untouched, and the stack sizes are unchanged. -/
theorem forwardUpdate_frame (ft : FT) (mi : Nat → Nat → Nat) (p : Bool)
    (s : HalfkaStack) (start : Nat) (wT pwT : Nat → Nat → Int)
    (tappend : ThreatDiff → List Nat × List Nat)
    (tappendFused : ThreatDiff → ThreatDiff → Nat → List Nat × List Nat)
    (psqtAcc : Nat → AccState) (ts : ThreatStack) (tstart : Nat) :
    ((forwardUpdateHalfka ft mi p s start).size = s.size ∧
     (∀ i, ((forwardUpdateHalfka ft mi p s start).acc i).diff =
       (s.acc i).diff) ∧
     (∀ i, i ≤ start → (forwardUpdateHalfka ft mi p s start).acc i =
       s.acc i) ∧
     (∀ i, s.size ≤ i → (forwardUpdateHalfka ft mi p s start).acc i =
       s.acc i)) ∧
    ((forwardUpdateThreats wT pwT tappend tappendFused p psqtAcc ts
        tstart).size = ts.size ∧
     (∀ i, ((forwardUpdateThreats wT pwT tappend tappendFused p psqtAcc ts
       tstart).acc i).diff = (ts.acc i).diff) ∧
     (∀ i, i ≤ tstart → (forwardUpdateThreats wT pwT tappend tappendFused p
       psqtAcc ts tstart).acc i = ts.acc i) ∧
     (∀ i, ts.size ≤ i → (forwardUpdateThreats wT pwT tappend tappendFused
       p psqtAcc ts tstart).acc i = ts.acc i)) := by
  obtain ⟨h1, h2, h3, h4⟩ := forwardLoopHalfka_frame ft mi p s.size
    (start + 1) s
  obtain ⟨t1, t2, t3, t4⟩ := forwardLoopThreat_frame wT pwT tappend
    tappendFused p psqtAcc ts.size (tstart + 1) ts
  exact ⟨⟨h1, h2, fun i hi => h3 i (by omega), h4⟩,
    ⟨t1, t2, fun i hi => t3 i (by omega), t4⟩⟩

lemma wrapW_add_left (n : Nat) (x y : Int) :
    wrapW n (wrapW n x + y) = wrapW n (x + y) := by
  unfold wrapW
  have h1 : (x + 2 ^ (n - 1)) % ((2 ^ n : Nat) : Int) - 2 ^ (n - 1) + y +
      2 ^ (n - 1) = (x + 2 ^ (n - 1)) % ((2 ^ n : Nat) : Int) + y := by
    ring
  rw [h1, Int.emod_add_emod]
  have h2 : x + 2 ^ (n - 1) + y = x + y + 2 ^ (n - 1) := by ring
  rw [h2]

lemma wrapW_sub_left (n : Nat) (x y : Int) :
    wrapW n (wrapW n x - y) = wrapW n (x - y) := by
  unfold wrapW
  have h1 : (x + 2 ^ (n - 1)) % ((2 ^ n : Nat) : Int) - 2 ^ (n - 1) - y +
      2 ^ (n - 1) = (x + 2 ^ (n - 1)) % ((2 ^ n : Nat) : Int) + -y := by
    ring
  rw [h1, Int.emod_add_emod]
  have h2 : x + 2 ^ (n - 1) + -y = x - y + 2 ^ (n - 1) := by ring
  rw [h2]

lemma wrapW_idem (n : Nat) (x : Int) : wrapW n (wrapW n x) = wrapW n x := by
  have h := wrapW_add_left n x 0
  simpa using h

lemma foldSub16_norm (w : Nat → Nat → Int) :
    ∀ (l : List Nat) (init : Nat → Int) (i : Nat),
      wrapW 16 (init i) = init i →
      (l.foldl (fun r idx => rowSub16 r (w idx)) init) i =
        wrapW 16 (init i - (l.map (fun f => w f i)).sum) := by
  intro l
  induction l with
  | nil => intro init i hinit; simpa using hinit.symm
  | cons c l ih =>
    intro init i hinit
    simp only [List.foldl_cons]
    rw [ih (rowSub16 init (w c)) i (by simp [rowSub16, wrapW_idem])]
    simp only [rowSub16, List.map_cons, List.sum_cons]
    rw [wrapW_sub_left]
    have h : init i - w c i - (l.map (fun f => w f i)).sum =
        init i - (w c i + (l.map (fun f => w f i)).sum) := by ring
    rw [h]

lemma foldAdd16_norm (w : Nat → Nat → Int) :
    ∀ (l : List Nat) (init : Nat → Int) (i : Nat),
      wrapW 16 (init i) = init i →
      (l.foldl (fun r idx => rowAdd16 r (w idx)) init) i =
        wrapW 16 (init i + (l.map (fun f => w f i)).sum) := by
  intro l
  induction l with
  | nil => intro init i hinit; simpa using hinit.symm
  | cons c l ih =>
    intro init i hinit
    simp only [List.foldl_cons]
    rw [ih (rowAdd16 init (w c)) i (by simp [rowAdd16, wrapW_idem])]
    simp only [rowAdd16, List.map_cons, List.sum_cons]
    rw [wrapW_add_left]
    have h : init i + w c i + (l.map (fun f => w f i)).sum =
        init i + (w c i + (l.map (fun f => w f i)).sum) := by ring
    rw [h]

lemma foldSub32_norm (w : Nat → Nat → Int) :
    ∀ (l : List Nat) (init : Nat → Int) (i : Nat),
      wrapW 32 (init i) = init i →
      (l.foldl (fun r idx => rowSub32 r (w idx)) init) i =
        wrapW 32 (init i - (l.map (fun f => w f i)).sum) := by
  intro l
  induction l with
  | nil => intro init i hinit; simpa using hinit.symm
  | cons c l ih =>
    intro init i hinit
    simp only [List.foldl_cons]
    rw [ih (rowSub32 init (w c)) i (by simp [rowSub32, wrapW_idem])]
    simp only [rowSub32, List.map_cons, List.sum_cons]
    rw [wrapW_sub_left]
    have h : init i - w c i - (l.map (fun f => w f i)).sum =
        init i - (w c i + (l.map (fun f => w f i)).sum) := by ring
    rw [h]

lemma foldAdd32_norm (w : Nat → Nat → Int) :
    ∀ (l : List Nat) (init : Nat → Int) (i : Nat),
      wrapW 32 (init i) = init i →
      (l.foldl (fun r idx => rowAdd32 r (w idx)) init) i =
        wrapW 32 (init i + (l.map (fun f => w f i)).sum) := by
  intro l
  induction l with
  | nil => intro init i hinit; simpa using hinit.symm
  | cons c l ih =>
    intro init i hinit
    simp only [List.foldl_cons]
    rw [ih (rowAdd32 init (w c)) i (by simp [rowAdd32, wrapW_idem])]
    simp only [rowAdd32, List.map_cons, List.sum_cons]
    rw [wrapW_add_left]
    have h : init i + w c i + (l.map (fun f => w f i)).sum =
        init i + (w c i + (l.map (fun f => w f i)).sum) := by ring
    rw [h]

lemma doubleIncPSQ_eq_two_singles (ft : FT) (mi : Nat → Nat → Nat)
    (p : Bool) (acc0 middle target : AccState)
    (hm_from : middle.diff.fromSq ≠ SQ_NONE)
    (hm_to : middle.diff.toSq ≠ SQ_NONE)
    (hm_add : middle.diff.addSq = SQ_NONE)
    (ht_from : target.diff.fromSq ≠ SQ_NONE)
    (ht_to : target.diff.toSq ≠ SQ_NONE)
    (ht_add : target.diff.addSq = SQ_NONE)
    (hguard : middle.diff.toSq = target.diff.removeSq)
    (hpc : target.diff.removePc = middle.diff.pc) :
    (∀ i, (doubleIncUpdatePSQ ft mi p
        { middle with diff := { middle.diff with toSq := SQ_NONE } }
        { target with diff := { target.diff with removeSq := SQ_NONE } }
        acc0).accumulator.accumulation p i =
      (singleForwardPSQ ft mi p (singleForwardPSQ ft mi p acc0 middle)
        target).accumulator.accumulation p i) ∧
    (∀ i, (doubleIncUpdatePSQ ft mi p
        { middle with diff := { middle.diff with toSq := SQ_NONE } }
        { target with diff := { target.diff with removeSq := SQ_NONE } }
        acc0).accumulator.psqtAccumulation p i =
      (singleForwardPSQ ft mi p (singleForwardPSQ ft mi p acc0 middle)
        target).accumulator.psqtAccumulation p i) ∧
    ((doubleIncUpdatePSQ ft mi p
        { middle with diff := { middle.diff with toSq := SQ_NONE } }
        { target with diff := { target.diff with removeSq := SQ_NONE } }
        acc0).accumulator.computed p =
      (singleForwardPSQ ft mi p (singleForwardPSQ ft mi p acc0 middle)
        target).accumulator.computed p) := by
  have hidx : mi target.diff.removePc target.diff.removeSq =
      mi middle.diff.pc middle.diff.toSq := by
    rw [hpc, ← hguard]
  have htr : target.diff.removeSq ≠ SQ_NONE := by
    rw [← hguard]; exact hm_to
  refine ⟨?_, ?_, ?_⟩
  · intro i
    by_cases hmr : middle.diff.removeSq = SQ_NONE <;>
      (simp [doubleIncUpdatePSQ, singleForwardPSQ, appendChangedPSQ,
        setComputed, applyOps, updFun, applyTerms16, rowAdd16, rowSub16,
        hm_from, hm_to, hm_add, ht_from, ht_to, ht_add, htr, hmr,
        wrapW_add_left, wrapW_sub_left];
       rw [hidx]; congr 1; ring)
  · intro i
    by_cases hmr : middle.diff.removeSq = SQ_NONE <;>
      (simp [doubleIncUpdatePSQ, singleForwardPSQ, appendChangedPSQ,
        setComputed, applyOps, updFun, applyTerms32, rowAdd32, rowSub32,
        hm_from, hm_to, hm_add, ht_from, ht_to, ht_add, htr, hmr,
        wrapW_add_left, wrapW_sub_left];
       rw [hidx]; congr 1; ring)
  · simp [doubleIncUpdatePSQ, singleForwardPSQ, setComputed]

lemma wrapW_sub_add_left (n : Nat) (x y z : Int) :
    wrapW n (wrapW n x - y + z) = wrapW n (x - y + z) := by
  have h1 : wrapW n x - y + z = wrapW n x + (z - y) := by ring
  have h2 : x - y + z = x + (z - y) := by ring
  rw [h1, h2, wrapW_add_left]

lemma applyLists_fused_eq (wT pwT : Nat → Nat → Int) (q : Bool)
    (src tgt1 tgt2 : Accumulator) (r1 a1 r2 a2 rf af : List Nat)
    (hsrc16 : ∀ i, wrapW 16 (src.accumulation q i) = src.accumulation q i)
    (hsrc32 : ∀ i, wrapW 32 (src.psqtAccumulation q i) =
      src.psqtAccumulation q i)
    (hnet16 : ∀ i,
      (af.map (fun f => wT f i)).sum - (rf.map (fun f => wT f i)).sum =
        (a1.map (fun f => wT f i)).sum + (a2.map (fun f => wT f i)).sum -
          (r1.map (fun f => wT f i)).sum - (r2.map (fun f => wT f i)).sum)
    (hnet32 : ∀ i,
      (af.map (fun f => pwT f i)).sum - (rf.map (fun f => pwT f i)).sum =
        (a1.map (fun f => pwT f i)).sum + (a2.map (fun f => pwT f i)).sum -
          (r1.map (fun f => pwT f i)).sum -
          (r2.map (fun f => pwT f i)).sum) :
    (∀ i, (applyLists wT pwT q src tgt2 rf af).accumulation q i =
      (applyLists wT pwT q (applyLists wT pwT q src tgt1 r1 a1) tgt2
        r2 a2).accumulation q i) ∧
    (∀ i, (applyLists wT pwT q src tgt2 rf af).psqtAccumulation q i =
      (applyLists wT pwT q (applyLists wT pwT q src tgt1 r1 a1) tgt2
        r2 a2).psqtAccumulation q i) := by
  constructor
  · intro i
    simp only [applyLists, updFun, if_pos]
    have hsubf := foldSub16_norm wT rf (src.accumulation q) i (hsrc16 i)
    have hsub1 := foldSub16_norm wT r1 (src.accumulation q) i (hsrc16 i)
    have hM : (a1.foldl (fun r idx => rowAdd16 r (wT idx))
        (r1.foldl (fun r idx => rowSub16 r (wT idx))
          (src.accumulation q))) i =
        wrapW 16 (src.accumulation q i -
          (r1.map (fun f => wT f i)).sum + (a1.map (fun f => wT f i)).sum) := by
      rw [foldAdd16_norm wT a1 _ i (by rw [hsub1]; exact wrapW_idem _ _),
        hsub1, wrapW_add_left]
    have hsub2 := foldSub16_norm wT r2
      (a1.foldl (fun r idx => rowAdd16 r (wT idx))
        (r1.foldl (fun r idx => rowSub16 r (wT idx)) (src.accumulation q)))
      i (by rw [hM]; exact wrapW_idem _ _)
    rw [foldAdd16_norm wT af _ i (by rw [hsubf]; exact wrapW_idem _ _),
      hsubf, wrapW_add_left,
      foldAdd16_norm wT a2 _ i (by rw [hsub2]; exact wrapW_idem _ _),
      hsub2, wrapW_add_left, hM, wrapW_sub_add_left]
    congr 1
    have h := hnet16 i
    linarith [h]
  · intro i
    simp only [applyLists, updFun, if_pos]
    have hsubf := foldSub32_norm pwT rf (src.psqtAccumulation q) i (hsrc32 i)
    have hsub1 := foldSub32_norm pwT r1 (src.psqtAccumulation q) i (hsrc32 i)
    have hM : (a1.foldl (fun r idx => rowAdd32 r (pwT idx))
        (r1.foldl (fun r idx => rowSub32 r (pwT idx))
          (src.psqtAccumulation q))) i =
        wrapW 32 (src.psqtAccumulation q i -
          (r1.map (fun f => pwT f i)).sum +
          (a1.map (fun f => pwT f i)).sum) := by
      rw [foldAdd32_norm pwT a1 _ i (by rw [hsub1]; exact wrapW_idem _ _),
        hsub1, wrapW_add_left]
    have hsub2 := foldSub32_norm pwT r2
      (a1.foldl (fun r idx => rowAdd32 r (pwT idx))
        (r1.foldl (fun r idx => rowSub32 r (pwT idx))
          (src.psqtAccumulation q)))
      i (by rw [hM]; exact wrapW_idem _ _)
    rw [foldAdd32_norm pwT af _ i (by rw [hsubf]; exact wrapW_idem _ _),
      hsubf, wrapW_add_left,
      foldAdd32_norm pwT a2 _ i (by rw [hsub2]; exact wrapW_idem _ _),
      hsub2, wrapW_add_left, hM, wrapW_sub_add_left]
    congr 1
    have h := hnet32 i
    linarith [h]

/-- C5: whenever the forward pass takes the fused double-update path (PSQ
stack guard: the middle ply's capture move has its to-square equal to the
target ply's remove square, and the removed piece is the moved piece), the
accumulation, psqtAccumulation and computed values written to the target
ply by the fused update -- computed exactly as the loop does, with the
middle diff's to-square and the target diff's remove-square blanked to
SQ_NONE -- are identical to those produced by applying the two single-ply
updates unfused; and on the Threat stack, one fused apply over the
concatenated removed/added feature lists produces the same accumulation
and psqtAccumulation rows as the two single applies composed, whenever the
fused lists have the same per-coordinate net weight effect as the two
plies' lists combined. -/
theorem fusedUpdate_equiv (ft : FT) (mi : Nat → Nat → Nat) (p : Bool)
    (acc0 middle target : AccState)
    (wT pwT : Nat → Nat → Int) (q : Bool)
    (src tgt1 tgt2 : Accumulator) (r1 a1 r2 a2 rf af : List Nat)
    (hm_from : middle.diff.fromSq ≠ SQ_NONE)
    (hm_to : middle.diff.toSq ≠ SQ_NONE)
    (hm_add : middle.diff.addSq = SQ_NONE)
    (ht_from : target.diff.fromSq ≠ SQ_NONE)
    (ht_to : target.diff.toSq ≠ SQ_NONE)
    (ht_add : target.diff.addSq = SQ_NONE)
    (hguard : middle.diff.toSq = target.diff.removeSq)
    (hpc : target.diff.removePc = middle.diff.pc)
    (hsrc16 : ∀ i, wrapW 16 (src.accumulation q i) = src.accumulation q i)
    (hsrc32 : ∀ i, wrapW 32 (src.psqtAccumulation q i) =
      src.psqtAccumulation q i)
    (hnet16 : ∀ i,
      (af.map (fun f => wT f i)).sum - (rf.map (fun f => wT f i)).sum =
        (a1.map (fun f => wT f i)).sum + (a2.map (fun f => wT f i)).sum -
          (r1.map (fun f => wT f i)).sum - (r2.map (fun f => wT f i)).sum)
    (hnet32 : ∀ i,
      (af.map (fun f => pwT f i)).sum - (rf.map (fun f => pwT f i)).sum =
        (a1.map (fun f => pwT f i)).sum + (a2.map (fun f => pwT f i)).sum -
          (r1.map (fun f => pwT f i)).sum -
          (r2.map (fun f => pwT f i)).sum) :
    ((∀ i, (doubleIncUpdatePSQ ft mi p
        { middle with diff := { middle.diff with toSq := SQ_NONE } }
        { target with diff := { target.diff with removeSq := SQ_NONE } }
        acc0).accumulator.accumulation p i =
      (singleForwardPSQ ft mi p (singleForwardPSQ ft mi p acc0 middle)
        target).accumulator.accumulation p i) ∧
    (∀ i, (doubleIncUpdatePSQ ft mi p
        { middle with diff := { middle.diff with toSq := SQ_NONE } }
        { target with diff := { target.diff with removeSq := SQ_NONE } }
        acc0).accumulator.psqtAccumulation p i =
      (singleForwardPSQ ft mi p (singleForwardPSQ ft mi p acc0 middle)
        target).accumulator.psqtAccumulation p i) ∧
    ((doubleIncUpdatePSQ ft mi p
        { middle with diff := { middle.diff with toSq := SQ_NONE } }
        { target with diff := { target.diff with removeSq := SQ_NONE } }
        acc0).accumulator.computed p =
      (singleForwardPSQ ft mi p (singleForwardPSQ ft mi p acc0 middle)
        target).accumulator.computed p)) ∧
    ((∀ i, (applyLists wT pwT q src tgt2 rf af).accumulation q i =
      (applyLists wT pwT q (applyLists wT pwT q src tgt1 r1 a1) tgt2
        r2 a2).accumulation q i) ∧
    (∀ i, (applyLists wT pwT q src tgt2 rf af).psqtAccumulation q i =
      (applyLists wT pwT q (applyLists wT pwT q src tgt1 r1 a1) tgt2
        r2 a2).psqtAccumulation q i)) :=
  ⟨doubleIncPSQ_eq_two_singles ft mi p acc0 middle target hm_from hm_to
      hm_add ht_from ht_to ht_add hguard hpc,
    applyLists_fused_eq wT pwT q src tgt1 tgt2 r1 a1 r2 a2 rf af hsrc16
      hsrc32 hnet16 hnet32⟩

def c5ft : FT :=
  ⟨fun f i => ((f + i : Nat) : Int), fun f i => ((f * i : Nat) : Int)⟩

def c5mi : Nat → Nat → Nat := fun pc sq => pc * 64 + sq

def c5acc : Accumulator := ⟨fun _ _ => 0, fun _ _ => 0, fun _ => false⟩

def c5acc0 : AccState := ⟨c5acc, ⟨0, 0, 0, 0, 0, 0, 0⟩⟩

def c5middle : AccState := ⟨c5acc, ⟨1, 10, 20, 7, 20, 0, 64⟩⟩

def c5target : AccState := ⟨c5acc, ⟨3, 30, 20, 1, 20, 0, 64⟩⟩

def c5w : Nat → Nat → Int := fun f _ => (f : Int)

theorem fusedUpdate_equiv_witness :
    ((doubleIncUpdatePSQ c5ft c5mi true
        { c5middle with diff := { c5middle.diff with toSq := SQ_NONE } }
        { c5target with diff := { c5target.diff with removeSq := SQ_NONE } }
        c5acc0).accumulator.computed true =
      (singleForwardPSQ c5ft c5mi true
        (singleForwardPSQ c5ft c5mi true c5acc0 c5middle)
        c5target).accumulator.computed true) ∧
    ((applyLists c5w c5w true c5acc c5acc [5] [9]).accumulation true 0 =
      (applyLists c5w c5w true
        (applyLists c5w c5w true c5acc c5acc [5] [7]) c5acc [7]
        [9]).accumulation true 0) :=
  ⟨(fusedUpdate_equiv c5ft c5mi true c5acc0 c5middle c5target c5w c5w true
      c5acc c5acc c5acc [5] [7] [7] [9] [5] [9]
      (by decide) (by decide) (by decide) (by decide) (by decide)
      (by decide) (by decide) (by decide)
      (fun _ => rfl) (fun _ => rfl) (fun _ => rfl)
      (fun _ => rfl)).1.2.2,
    (fusedUpdate_equiv c5ft c5mi true c5acc0 c5middle c5target c5w c5w true
      c5acc c5acc c5acc [5] [7] [7] [9] [5] [9]
      (by decide) (by decide) (by decide) (by decide) (by decide)
      (by decide) (by decide) (by decide)
      (fun _ => rfl) (fun _ => rfl) (fun _ => rfl)
      (fun _ => rfl)).2.1 0⟩

end NNUE

namespace Fen

/-- The piece-code-to-character table `PieceToChar` of `src/position.cpp`
(`" PNBRQK  pnbrqk"`): index 0 is `NO_PIECE`, 1..6 the white pieces
PNBRQK, 9..14 the black pieces pnbrqk. -/
def PieceToChar : List Char := " PNBRQK  pnbrqk".toList

/-- Character of a piece code (`PieceToChar[pc]`). -/
def pieceCharAt (p : Nat) : Char := PieceToChar.getD p ' '

/-- Index of a character in `PieceToChar` (`PieceToChar.find(token)`),
`none` for `string::npos`. -/
def pieceIdx (c : Char) : Option Nat := PieceToChar.indexOf? c

/-- Modelled from the spec: C `isspace` over the ASCII range, as used by
`Position::set` to terminate the placement and castling loops. -/
def csIsSpace (c : Char) : Bool :=
  decide (c.toNat = 32) || (decide (9 ≤ c.toNat) && decide (c.toNat ≤ 13))

/-- Modelled from the spec: a single `noskipws` character extraction from
the `istringstream` (`ss >> token`); at end of input this model yields the
NUL character (the C++ stream instead sets failbit and leaves the
variable untouched — no theorem below reads past the end). -/
def readChar : List Char → Char × List Char
  | [] => (Char.ofNat 0, [])
  | c :: r => (c, r)

/-- The engine-side position state observable through `Position::fen()`:
the board (piece code per square, 0 = `NO_PIECE`), side to move
(`false` = WHITE), the castling-rights mask (WHITE_OO=1, WHITE_OOO=2,
BLACK_OO=4, BLACK_OOO=8), the castling rook squares indexed by right,
plus the remaining fields `Position::set` parses (`st->epSquare`,
`st->rule50`, `gamePly`, `chess960`). The board is indexed by `Int`
because the placement cursor of `set` is signed square arithmetic. -/
structure PositionM where
  board : Int → Nat
  sideToMove : Bool
  castlingRights : Nat
  castlingRookSquare : Nat → Int
  epSquare : Int
  rule50 : Int
  gamePly : Int
  chess960 : Bool

/-- The all-zero position (`std::memset(this, 0, sizeof(Position))` and
`std::memset(si, 0, sizeof(StateInfo))` at the top of `Position::set`). -/
def zeroPos : PositionM :=
  ⟨fun _ => 0, false, 0, fun _ => 0, 0, 0, 0, false⟩

/-- Piece-placement loop of `Position::set` (`src/position.cpp:203-216`):
starting at SQ_A8 = 56, a digit advances the cursor east, a slash moves
it two ranks south (−16), a character found in `PieceToChar` is placed at
the cursor which then advances; anything else is skipped; a whitespace
character (consumed) ends the loop. Returns the board and the remaining
input. -/
def placeLoop : List Char → (Int → Nat) → Int → ((Int → Nat) × List Char)
  | [], b, _ => (b, [])
  | t :: rest, b, sq =>
    if csIsSpace t then (b, rest)
    else if t.isDigit then placeLoop rest b (sq + ((t.toNat - 48 : Nat) : Int))
    else if t = '/' then placeLoop rest b (sq - 16)
    else
      match pieceIdx t with
      | some idx => placeLoop rest (fun s => if s = sq then idx else b s) (sq + 1)
      | none => placeLoop rest b sq

/-- Modelled from the spec: `relative_square(c, s) = s ^ (c * 56)` of the
absent types.h. -/
def relSq (c : Bool) (s : Nat) : Int := ((s ^^^ (if c then 56 else 0) : Nat) : Int)

/-- The rook scans of the castling parser (`for (rsq = ...; piece_on(rsq)
!= rook; --rsq)` and the `++rsq` variant), with explicit fuel: the C++
loop is unbounded and walks off the board if no rook exists. -/
def rookScan (b : Int → Nat) (rook : Nat) (step : Int) : Nat → Int → Int
  | 0, s => s
  | fuel + 1, s => if b s = rook then s else rookScan b rook step fuel (s + step)

/-- `lsb(pieces(c, KING))` as used by `square<KING>(c)`: the lowest square
holding the king of colour `c` (64 if absent). -/
def kingSq (b : Int → Nat) (c : Bool) : Int :=
  let k : Nat :=
    ((List.range 64).find?
      (fun s => decide (b ((s : Nat) : Int) = if c then 14 else 6))).getD 64
  (k : Int)

/-- `Position::set_castling_right` (`src/position.cpp:292-306`) restricted
to the fields `fen()` reads: `cr = c & (kfrom < rfrom ? KING_SIDE :
QUEEN_SIDE)` (the colour/side intersection of types.h, modelled from the
spec: white mask 3, black mask 12, king side 5, queen side 10), or-ed
into the rights mask, and the rook square recorded under `cr`. -/
def setCR (b : Int → Nat) (c : Bool) (rsq : Int) (cr : Nat) (crs : Nat → Int) :
    Nat × (Nat → Int) :=
  let kfrom := kingSq b c
  let x : Nat := (if c then 12 else 3) &&& (if kfrom < rsq then 5 else 10)
  (cr ||| x, fun y => if y = x then rsq else crs y)

/-- One iteration of the castling-availability loop of `Position::set`
(`src/position.cpp:228-251`): lower-case means BLACK, the token is
upper-cased; K scans for the rook westwards from H1 (relative), Q
eastwards from A1, a file letter A..H addresses the rook square directly
(`relative_rank(c, RANK_1)`), anything else is skipped. -/
def castleStep (b : Int → Nat) (t : Char) (cr : Nat) (crs : Nat → Int) :
    Nat × (Nat → Int) :=
  let c : Bool := decide (97 ≤ t.toNat ∧ t.toNat ≤ 122)
  let T : Char := if 97 ≤ t.toNat ∧ t.toNat ≤ 122 then Char.ofNat (t.toNat - 32) else t
  let rook : Nat := if c then 12 else 4
  if T = 'K' then setCR b c (rookScan b rook (-1) 64 (relSq c 7)) cr crs
  else if T = 'Q' then setCR b c (rookScan b rook 1 64 (relSq c 0)) cr crs
  else if 65 ≤ T.toNat ∧ T.toNat ≤ 72 then
    setCR b c ((((if c then (7 : Nat) else 0) * 8 + (T.toNat - 65) : Nat)) : Int) cr crs
  else (cr, crs)

/-- The castling-availability loop (terminated by consumed whitespace). -/
def castleLoop : List Char → (Int → Nat) → Nat → (Nat → Int) →
    (Nat × (Nat → Int) × List Char)
  | [], _, cr, crs => (cr, crs, [])
  | t :: rest, b, cr, crs =>
    if csIsSpace t then (cr, crs, rest)
    else
      let p := castleStep b t cr crs
      castleLoop rest b p.1 p.2

/-- En-passant stage of `Position::set` (`src/position.cpp:255-272`): a
file letter a..h followed by the rank digit 6 (white to move) or 3
(black) proposes `make_square(col - 97, row - 49)`; it is kept only if a
side-to-move pawn attacks it, an enemy pawn stands in front of it, and
the square and the square behind it are empty (conditions modelled from
the spec, bitboard.h being absent: `pawn_push(WHITE) = 8`, a pawn on `s`
attacks the two diagonally-forward neighbours with file-edge guards);
otherwise `epSquare = SQ_NONE` (64). The row character is only read when
the file character is in range (short-circuit of the C++ condition). -/
def epStage (cs : List Char) (b : Int → Nat) (stm : Bool) : Int × List Char :=
  let r1 := readChar cs
  let col := r1.1
  if 97 ≤ col.toNat ∧ col.toNat ≤ 104 then
    let r2 := readChar r1.2
    let row := r2.1
    if row = (if stm then '3' else '6') then
      let ep : Int := (((row.toNat - 49) * 8 + (col.toNat - 97) : Nat) : Int)
      let pushOpp : Int := if stm then 8 else -8
      let pushOwn : Int := if stm then -8 else 8
      let myPawn : Nat := if stm then 9 else 1
      let oppPawn : Nat := if stm then 1 else 9
      let f : Nat := col.toNat - 97
      let condA : Bool :=
        (decide (f ≠ 0) && decide (b (ep + pushOpp - 1) = myPawn)) ||
          (decide (f ≠ 7) && decide (b (ep + pushOpp + 1) = myPawn))
      let condB : Bool := decide (b (ep + pushOpp) = oppPawn)
      let condC : Bool := decide (b ep = 0) && decide (b (ep + pushOwn) = 0)
      if condA && condB && condC then (ep, r2.2) else (64, r2.2)
    else (64, r2.2)
  else (64, r1.2)

/-- A `skipws` integer extraction (`ss >> std::skipws >> ...`): skip
whitespace, accept an optional sign and a digit run; on failure the
extracted value is 0 and the flag is false (C++11 stream semantics). -/
def parseIntCs (cs : List Char) : Int × List Char × Bool :=
  let cs1 := cs.dropWhile (fun c => csIsSpace c)
  let signed : Bool × List Char :=
    match cs1 with
    | c :: r => if c = '-' then (true, r) else if c = '+' then (false, r) else (false, cs1)
    | [] => (false, cs1)
  let ds := signed.2.takeWhile (fun c => c.isDigit)
  let rest := signed.2.dropWhile (fun c => c.isDigit)
  if ds = [] then (0, rest, false)
  else
    let n : Int := ((ds.foldl (fun a c => a * 10 + (c.toNat - 48)) 0 : Nat) : Int)
    (if signed.1 then -n else n, rest, true)

/-- `Position::set` (`src/position.cpp:155-287`): zero everything
(memset — the prior position is entirely discarded), parse the
placement, the side to move (any character other than 'w', valid or
not, yields BLACK), the castling rights, the en-passant square, the
halfmove clock and the fullmove number
(`gamePly = max(2 * (g - 1), 0) + (stm == BLACK)`), and record the
chess960 flag. There is no validity check and no error return: the
function is total and its result depends only on the FEN string and the
flag. -/
def posSet (fenStr : String) (isChess960 : Bool) (prior : PositionM) : PositionM :=
  let cs0 := fenStr.toList
  let st1 := placeLoop cs0 (fun _ => 0) 56
  let b := st1.1
  let st2 := readChar st1.2
  let stm : Bool := if st2.1 = 'w' then false else true
  let st3 := readChar st2.2
  let st4 := castleLoop st3.2 b 0 (fun _ => 0)
  let st5 := epStage st4.2.2 b stm
  let st6 := parseIntCs st5.2
  let st7 := if st6.2.2 then parseIntCs st6.2.1 else (0, st6.2.1, false)
  let gp : Int := max (2 * (st7.1 - 1)) 0 + (if stm then 1 else 0)
  { board := b, sideToMove := stm, castlingRights := st4.1,
    castlingRookSquare := st4.2.1, epSquare := st5.1, rule50 := st6.1,
    gamePly := gp, chess960 := isChess960 }

/-- The rank loop of `Position::fen()` (`src/position.cpp:393-409`):
run-length-encode the empty squares of one rank (file A to H), emitting
the pending empty count before each piece character and at the end of
the rank. -/
def encRank : List Nat → Nat → List Char
  | [], 0 => []
  | [], cnt + 1 => [Char.ofNat (48 + cnt + 1)]
  | p :: rest, cnt =>
    if p = 0 then encRank rest (cnt + 1)
    else
      (if cnt = 0 then [] else [Char.ofNat (48 + cnt)]) ++
        pieceCharAt p :: encRank rest 0

/-- Rank separators: `if (r > RANK_1) ss << '/'`. -/
def joinRanks : List (List Char) → List Char
  | [] => []
  | [x] => x
  | x :: rest => x ++ '/' :: joinRanks rest

/-- One castling character of `fen()`: emitted only when the right is
held; Shredder file letter in Chess960 mode, else the KQkq letter. -/
def ccPart (pos : PositionM) (cr : Nat) (letter : Char) (upper : Bool) : List Char :=
  if pos.castlingRights &&& cr ≠ 0 then
    [if pos.chess960 then
        Char.ofNat ((if upper then 65 else 97) + ((pos.castlingRookSquare cr).emod 8).toNat)
      else letter]
  else []

/-- `Position::fen()` (`src/position.cpp:388-429`), translated exactly as
written: the piece placement, the side-to-move field, the castling
field — and then the function returns. No en-passant field, no halfmove
clock and no fullmove number are emitted. -/
def posFen (pos : PositionM) : String :=
  let ranks := (List.range 8).map
    (fun k => encRank
      ((List.range 8).map (fun f => pos.board (((7 - k) * 8 + f : Nat) : Int))) 0)
  String.mk (joinRanks ranks ++
    (if pos.sideToMove then " b " else " w ").toList ++
    (ccPart pos 1 'K' true ++ ccPart pos 2 'Q' true ++
      ccPart pos 4 'k' false ++ ccPart pos 8 'q' false ++
      (if pos.castlingRights &&& 15 = 0 then ['-'] else [])))

/-- The standard starting FEN, a complete six-field record. -/
def startFEN : String :=
  "rnbqkbnr/pppppppp/8/8/8/8/PPPPPPPP/RNBQKBNR w KQkq - 0 1"

/-- A six-field FEN with black to move and a capturable en-passant
target on e3 (a black pawn on d4 can take on e3). -/
def epFEN : String :=
  "rnbqkbnr/ppp1pppp/8/8/3pP3/8/PPPP1PPP/RNBQKBNR b KQkq e3 0 2"

/-- A malformed FEN: the side-to-move field holds the invalid character
x. -/
def badFEN : String := "k7/8/8/8/8/8/8/K7 x - - 0 1"

/-- C1: the set/fen round trip fails. `Position::set` does parse all six
FEN fields (for the e3 en-passant FEN below it records epSquare = 20,
rule50 = 0 and gamePly = 3), but `Position::fen()` returns after the
castling field: on the accepted six-field starting FEN the returned
string is the three-field prefix
"rnbqkbnr/pppppppp/8/8/8/8/PPPPPPPP/RNBQKBNR w KQkq", which differs from
the input; the en-passant target, halfmove clock and fullmove number are
never reproduced. -/
theorem fen_set_roundtrip_truncated :
    posFen (posSet startFEN false zeroPos) =
      "rnbqkbnr/pppppppp/8/8/8/8/PPPPPPPP/RNBQKBNR w KQkq" ∧
    posFen (posSet startFEN false zeroPos) ≠ startFEN ∧
    (posSet epFEN false zeroPos).epSquare = 20 ∧
    (posSet epFEN false zeroPos).rule50 = 0 ∧
    (posSet epFEN false zeroPos).gamePly = 3 ∧
    posFen (posSet epFEN false zeroPos) =
      "rnbqkbnr/ppp1pppp/8/8/3pP3/8/PPPP1PPP/RNBQKBNR b KQkq" ∧
    posFen (posSet epFEN false zeroPos) ≠ epFEN := by
  exact ⟨by decide, by decide, by decide, by decide, by decide, by decide,
    by decide⟩

/-- C7 counterexample: on the malformed FEN "k7/8/8/8/8/8/8/K7 x - - 0 1"
(invalid side-to-move character x) `Position::set` returns no error and
does not leave the position unchanged: the board is rewritten (white
king appears on a1, black king on a8) and the side to move silently
becomes BLACK. -/
theorem set_invalid_mutates_cex :
    (posSet badFEN false zeroPos).sideToMove ≠ zeroPos.sideToMove ∧
    (posSet badFEN false zeroPos).board 0 ≠ zeroPos.board 0 ∧
    (posSet badFEN false zeroPos).board 0 = 6 ∧
    (posSet badFEN false zeroPos).board 56 = 14 ∧
    (posSet badFEN false zeroPos).sideToMove = true := by
  exact ⟨by decide, by decide, by decide, by decide, by decide⟩

/-- C7 (amended): `Position::set` has no error channel at all — it is a
total function that memsets the position first, so its result depends
only on the FEN string and the chess960 flag and never on the prior
state; invalid input is parsed best-effort instead of rejected. -/
theorem set_total_prior_independent (s : String) (b : Bool) (p q : PositionM) :
    posSet s b p = posSet s b q ∧ (posSet s b p).chess960 = b :=
  ⟨rfl, rfl⟩

end Fen

end Stockfish
